import Mathlib

/-!
Verification of the beatmap-generation core of the rhythm-game repository
(`src/utils/beatmapGenerator.ts`, `src/utils/patternMemory.ts`,
`src/utils/adaptivePatternMorphing.ts`, `src/utils/beatmapAnalytics.ts`).

Shallow embedding conventions:

* JavaScript numbers are modelled by `JNum`: an exact rational value
  (`JQ`, a kernel-computable fraction representation) extended with the
  IEEE-754 special values NaN, +Infinity and -Infinity.  Arithmetic on
  finite values is exact (no binary rounding, no negative zero); the
  propagation rules for NaN and the infinities follow IEEE-754 / JS
  semantics (`0/0 = NaN`, `x/0 = ±Infinity`, comparisons with NaN are
  false, `Math.min`/`Math.max` propagate NaN, and so on).
* Lane indices are modelled as `ℤ`: every lane value the code ever writes
  is an integer literal, an element of an integer array, or `(lane+1) % 4`
  of a previous lane, so the integer typing is faithful.
* `Math.random()` is modelled by an oracle `rng : ℕ → ℚ` together with a
  call counter that is threaded through the computation; call sites
  consume consecutive oracle values in program order.
* JS `for` loops whose bound is a runtime number are embedded as fuelled
  recursion with a fuel value that is provably sufficient under the
  hypotheses of the theorems (for `segmentIntoBars` with a positive
  finite BPM and a finite duration, and for the structure-analysis
  window walk always).
* `console.log` calls (and the call of the data they print) are omitted:
  they evaluate pure non-throwing expressions and do not affect the
  returned beatmap.
-/

/-! ## A kernel-computable exact fraction type -/

/-- Euclid's algorithm with explicit fuel, so that the kernel can reduce it
(`Nat.gcd` itself does not reduce in the kernel). -/
def gcdFuel : Nat → Nat → Nat → Nat
  | 0, a, _ => a
  | Nat.succ f, a, b => if b = 0 then a else gcdFuel f b (a % b)

/-- Greatest common divisor, computable by the kernel. -/
def ngcd (a b : Nat) : Nat := gcdFuel (b + 1) a b

theorem gcdFuel_eq (f : Nat) : ∀ a b : Nat, b < f → gcdFuel f a b = Nat.gcd b a := by
  induction f with
  | zero => intro a b h; omega
  | succ f ih =>
    intro a b h
    simp only [gcdFuel]
    by_cases hb : b = 0
    · subst hb; simp
    · rw [if_neg hb, ih b (a % b) (by have := Nat.mod_lt a (Nat.pos_of_ne_zero hb); omega)]
      exact (Nat.gcd_rec b a).symm

theorem ngcd_eq (a b : Nat) : ngcd a b = Nat.gcd b a := gcdFuel_eq _ _ _ (Nat.lt_succ_self b)

/-- Exact rational numbers as a numerator/positive-denominator pair.
Unlike Mathlib's `ℚ`, all operations on `JQ` reduce inside the kernel, so
concrete runs of the embedded program can be checked by `decide`. -/
structure JQ where
  num : ℤ
  den : ℕ
  dpos : 0 < den
deriving DecidableEq

/-- The rational value denoted by a `JQ`. -/
def JQ.toRat (q : JQ) : ℚ := (q.num : ℚ) / (q.den : ℚ)

/-- Build a `JQ` in lowest terms from a numerator and a positive denominator. -/
def JQ.norm (n : ℤ) (d : ℕ) (hd : 0 < d) : JQ :=
  let g := ngcd n.natAbs d
  ⟨n / (g : ℤ), d / g, by
    have hg : g = Nat.gcd d n.natAbs := ngcd_eq _ _
    have hgpos : 0 < g := by rw [hg]; exact Nat.gcd_pos_of_pos_left _ hd
    have hgd : g ∣ d := by rw [hg]; exact Nat.gcd_dvd_left _ _
    exact Nat.div_pos (Nat.le_of_dvd hd hgd) hgpos⟩

theorem JQ.toRat_norm (n : ℤ) (d : ℕ) (hd : 0 < d) :
    (JQ.norm n d hd).toRat = (n : ℚ) / (d : ℚ) := by
  unfold JQ.norm JQ.toRat
  simp only
  set g := ngcd n.natAbs d with hgdef
  have hg : g = Nat.gcd d n.natAbs := ngcd_eq _ _
  have hgpos : 0 < g := by rw [hg]; exact Nat.gcd_pos_of_pos_left _ hd
  have hgd : g ∣ d := by rw [hg]; exact Nat.gcd_dvd_left _ _
  have hgn : (g : ℤ) ∣ n := by
    rw [hg]; exact Int.natCast_dvd.mpr (Nat.gcd_dvd_right _ _)
  have hgzi : (g : ℤ) ≠ 0 := by exact_mod_cast Nat.pos_iff_ne_zero.mp hgpos
  obtain ⟨n', hn'⟩ := hgn
  obtain ⟨d', hd'⟩ := hgd
  have e1 : n / (g : ℤ) = n' := by rw [hn']; exact Int.mul_ediv_cancel_left _ hgzi
  have e2 : d / g = d' := by rw [hd']; exact Nat.mul_div_cancel_left _ hgpos
  rw [e1, e2, hn', hd']
  push_cast
  rw [mul_div_mul_left _ _ (by exact_mod_cast Nat.pos_iff_ne_zero.mp hgpos)]

theorem JQ.den_cast_ne_zero (q : JQ) : (q.den : ℚ) ≠ 0 := by
  exact_mod_cast Nat.pos_iff_ne_zero.mp q.dpos

theorem JQ.den_cast_pos (q : JQ) : (0 : ℚ) < (q.den : ℚ) := by exact_mod_cast q.dpos

/-- Addition. -/
def JQ.add (a b : JQ) : JQ :=
  JQ.norm (a.num * b.den + b.num * a.den) (a.den * b.den) (Nat.mul_pos a.dpos b.dpos)

/-- Negation. -/
def JQ.neg (a : JQ) : JQ := ⟨-a.num, a.den, a.dpos⟩

/-- Subtraction, as addition of the negation (exact for IEEE semantics). -/
def JQ.sub (a b : JQ) : JQ := a.add b.neg

/-- Multiplication. -/
def JQ.mul (a b : JQ) : JQ :=
  JQ.norm (a.num * b.num) (a.den * b.den) (Nat.mul_pos a.dpos b.dpos)

/-- Division; total with a dummy value for a zero divisor (the zero-divisor
case is handled at the `JNum` level, mirroring IEEE division). -/
def JQ.div (a b : JQ) : JQ :=
  if hb : b.num.natAbs = 0 then ⟨0, 1, one_pos⟩
  else
    JQ.norm (a.num * b.den * Int.sign b.num) (a.den * b.num.natAbs)
      (Nat.mul_pos a.dpos (Nat.pos_of_ne_zero hb))

/-- Strict comparison as a boolean (cross multiplication). -/
def JQ.blt (a b : JQ) : Bool := decide (a.num * (b.den : ℤ) < b.num * (a.den : ℤ))

/-- Non-strict comparison as a boolean. -/
def JQ.ble (a b : JQ) : Bool := decide (a.num * (b.den : ℤ) ≤ b.num * (a.den : ℤ))

/-- Floor to an integer (`Int.fdiv` is floor division). -/
def JQ.floorI (a : JQ) : ℤ := Int.fdiv a.num a.den

theorem JQ.toRat_add (a b : JQ) : (a.add b).toRat = a.toRat + b.toRat := by
  unfold JQ.add
  rw [JQ.toRat_norm]
  unfold JQ.toRat
  have ha := a.den_cast_ne_zero
  have hb := b.den_cast_ne_zero
  field_simp

theorem JQ.toRat_neg (a : JQ) : a.neg.toRat = -a.toRat := by
  unfold JQ.neg JQ.toRat
  push_cast
  ring

theorem JQ.toRat_sub (a b : JQ) : (a.sub b).toRat = a.toRat - b.toRat := by
  unfold JQ.sub
  rw [JQ.toRat_add, JQ.toRat_neg]
  ring

theorem JQ.toRat_mul (a b : JQ) : (a.mul b).toRat = a.toRat * b.toRat := by
  unfold JQ.mul
  rw [JQ.toRat_norm]
  unfold JQ.toRat
  have ha := a.den_cast_ne_zero
  have hb := b.den_cast_ne_zero
  field_simp

theorem JQ.num_eq_zero_iff (a : JQ) : a.num = 0 ↔ a.toRat = 0 := by
  unfold JQ.toRat
  constructor
  · intro h; rw [h]; simp
  · intro h
    rcases div_eq_zero_iff.mp h with h' | h'
    · exact_mod_cast h'
    · exact absurd h' a.den_cast_ne_zero

theorem JQ.toRat_div (a b : JQ) (hb : b.num ≠ 0) : (a.div b).toRat = a.toRat / b.toRat := by
  unfold JQ.div
  rw [dif_neg (by simpa using hb)]
  rw [JQ.toRat_norm]
  unfold JQ.toRat
  have hbq : (b.num : ℚ) ≠ 0 := by exact_mod_cast hb
  have haden := a.den_cast_ne_zero
  have hbden := b.den_cast_ne_zero
  rw [Nat.cast_mul]
  rcases lt_or_gt_of_ne hb with h | h
  · have hs : Int.sign b.num = -1 := Int.sign_eq_neg_one_of_neg h
    have habs : ((b.num.natAbs : ℕ) : ℚ) = -(b.num : ℚ) := by
      rw [← Int.cast_natCast (R := ℚ), Int.ofNat_natAbs_of_nonpos (le_of_lt h), Int.cast_neg]
    rw [hs, habs, Int.cast_mul, Int.cast_mul]
    push_cast
    field_simp
  · have hs : Int.sign b.num = 1 := Int.sign_eq_one_of_pos h
    have habs : ((b.num.natAbs : ℕ) : ℚ) = (b.num : ℚ) := by
      rw [← Int.cast_natCast (R := ℚ), Int.natAbs_of_nonneg (le_of_lt h)]
    rw [hs, habs, Int.cast_mul, Int.cast_mul]
    push_cast
    field_simp

theorem JQ.blt_iff (a b : JQ) : a.blt b = true ↔ a.toRat < b.toRat := by
  unfold JQ.blt JQ.toRat
  rw [decide_eq_true_iff]
  rw [div_lt_div_iff₀ a.den_cast_pos b.den_cast_pos]
  constructor
  · intro h; exact_mod_cast h
  · intro h; exact_mod_cast h

theorem JQ.ble_iff (a b : JQ) : a.ble b = true ↔ a.toRat ≤ b.toRat := by
  unfold JQ.ble JQ.toRat
  rw [decide_eq_true_iff]
  rw [div_le_div_iff₀ a.den_cast_pos b.den_cast_pos]
  constructor
  · intro h; exact_mod_cast h
  · intro h; exact_mod_cast h

theorem JQ.floorI_eq (a : JQ) : a.floorI = ⌊a.toRat⌋ := by
  unfold JQ.floorI JQ.toRat
  have hd : (0 : ℤ) ≤ (a.den : ℤ) := by exact_mod_cast Nat.le_of_lt a.dpos
  rw [Int.fdiv_eq_ediv _ hd, Rat.floor_intCast_div_natCast]

/-- A `JQ` with value an integer. -/
def JQ.ofInt (n : ℤ) : JQ := ⟨n, 1, one_pos⟩

theorem JQ.toRat_ofInt (n : ℤ) : (JQ.ofInt n).toRat = (n : ℚ) := by
  unfold JQ.ofInt JQ.toRat
  simp

/-! ## JS numbers: exact rationals extended with NaN and the infinities -/

/-- The value space of a JavaScript `number` in this embedding: a finite
exact rational, NaN, +Infinity or -Infinity. -/
inductive JNum where
  | fin : JQ → JNum
  | nan : JNum
  | pinf : JNum
  | ninf : JNum
deriving DecidableEq

/-- Finiteness (neither NaN nor infinite). -/
def JNum.isF : JNum → Bool
  | .fin _ => true
  | _ => false

instance : OfNat JNum n := ⟨JNum.fin (JQ.ofInt n)⟩

instance : OfScientific JNum :=
  ⟨fun m s e =>
    if s then JNum.fin (JQ.norm (m : ℤ) (10 ^ e) (Nat.pow_pos (by omega)))
    else JNum.fin (JQ.ofInt ((m : ℤ) * 10 ^ e))⟩

/-- Embed an integer. -/
def JNum.int (n : ℤ) : JNum := JNum.fin (JQ.ofInt n)

/-- IEEE addition. -/
def JNum.add : JNum → JNum → JNum
  | .nan, _ => .nan
  | _, .nan => .nan
  | .pinf, .ninf => .nan
  | .ninf, .pinf => .nan
  | .pinf, _ => .pinf
  | _, .pinf => .pinf
  | .ninf, _ => .ninf
  | _, .ninf => .ninf
  | .fin a, .fin b => .fin (a.add b)

/-- IEEE negation. -/
def JNum.neg : JNum → JNum
  | .nan => .nan
  | .pinf => .ninf
  | .ninf => .pinf
  | .fin a => .fin a.neg

/-- IEEE subtraction. -/
def JNum.sub (a b : JNum) : JNum := a.add b.neg

/-- Sign of a `JNum`: -1, 0 or 1 for finite values; ±1 for the infinities;
0 for NaN (never consulted for NaN). -/
def JNum.sgn : JNum → ℤ
  | .nan => 0
  | .pinf => 1
  | .ninf => -1
  | .fin a => Int.sign a.num

/-- IEEE multiplication (`0 * ±∞ = NaN`, sign rules otherwise). -/
def JNum.mul : JNum → JNum → JNum
  | .nan, _ => .nan
  | _, .nan => .nan
  | .fin a, .fin b => .fin (a.mul b)
  | a, b =>
    -- at least one infinite operand, none NaN
    if a.sgn * b.sgn = 0 then .nan
    else if a.sgn * b.sgn = 1 then .pinf
    else .ninf

/-- IEEE division (`x/0` is NaN for `x = 0` and a signed infinity otherwise;
`x/±∞ = 0`; `±∞/±∞ = NaN`). -/
def JNum.div : JNum → JNum → JNum
  | .nan, _ => .nan
  | _, .nan => .nan
  | .fin a, .fin b =>
    if b.num = 0 then
      if a.num = 0 then .nan
      else if 0 < a.num then .pinf else .ninf
    else .fin (a.div b)
  | .fin _, _ => .fin (JQ.ofInt 0)
  | .pinf, .pinf => .nan
  | .pinf, .ninf => .nan
  | .ninf, .pinf => .nan
  | .ninf, .ninf => .nan
  | a, .fin b =>
    -- infinite numerator, finite denominator
    if a.sgn * Int.sign b.num = -1 then .ninf else .pinf

/-- JS `<` (false whenever NaN is involved). -/
def JNum.jlt : JNum → JNum → Bool
  | .nan, _ => false
  | _, .nan => false
  | .fin a, .fin b => a.blt b
  | .pinf, _ => false
  | _, .pinf => true
  | .ninf, .ninf => false
  | .ninf, _ => true
  | _, .ninf => false

/-- JS `<=` (false whenever NaN is involved). -/
def JNum.jle : JNum → JNum → Bool
  | .nan, _ => false
  | _, .nan => false
  | .fin a, .fin b => a.ble b
  | _, .pinf => true
  | .pinf, _ => false
  | .ninf, _ => true
  | _, .ninf => false

/-- JS `Math.min` (NaN-propagating). -/
def JNum.jmin (a b : JNum) : JNum :=
  match a, b with
  | .nan, _ => .nan
  | _, .nan => .nan
  | _, _ => if JNum.jlt a b then a else b

/-- JS `Math.max` (NaN-propagating). -/
def JNum.jmax (a b : JNum) : JNum :=
  match a, b with
  | .nan, _ => .nan
  | _, .nan => .nan
  | _, _ => if JNum.jlt a b then b else a

/-- JS `Math.abs`. -/
def JNum.jabs : JNum → JNum
  | .nan => .nan
  | .pinf => .pinf
  | .ninf => .pinf
  | .fin a => .fin ⟨Int.natAbs a.num, a.den, a.dpos⟩

/-- JS `Math.floor`. -/
def JNum.jfloor : JNum → JNum
  | .nan => .nan
  | .pinf => .pinf
  | .ninf => .ninf
  | .fin a => .fin (JQ.ofInt a.floorI)

/-- JS `Math.round` (floor of `x + 1/2`; exact for the values arising here). -/
def JNum.jround (a : JNum) : JNum := (a.add (JNum.fin ⟨1, 2, by omega⟩)).jfloor

/-- JS truthiness of a number (`0` and NaN are falsy). -/
def JNum.truthy : JNum → Bool
  | .nan => false
  | .fin a => !(a.num = 0 : Bool)
  | _ => true

/-- Conversion to a natural number used to embed integer-valued loop bounds
(floor, clamped below by 0; garbage values map to 0). -/
def JNum.toN : JNum → ℕ
  | .fin a => a.floorI.toNat
  | _ => 0

instance : Add JNum := ⟨JNum.add⟩
instance : Sub JNum := ⟨JNum.sub⟩
instance : Mul JNum := ⟨JNum.mul⟩
instance : Div JNum := ⟨JNum.div⟩
instance : Neg JNum := ⟨JNum.neg⟩

/-- Convert a Mathlib rational to the computable fraction type. -/
def JQ.ofRat (q : ℚ) : JQ := ⟨q.num, q.den, q.pos⟩

theorem JQ.toRat_ofRat (q : ℚ) : (JQ.ofRat q).toRat = q := by
  unfold JQ.ofRat JQ.toRat
  exact_mod_cast (Rat.num_div_den q)

/-! ## Data model (`src/utils/audioAnalysis.ts`, `src/types/difficulty.ts`,
`src/utils/beatmapGenerator.ts`) -/

/-- `BeatData['type']` from `audioAnalysis.ts`. -/
inductive BeatType where
  | kick | snare | hihat | bass | melody | hold
deriving DecidableEq

/-- Input onset event (`BeatData` in `audioAnalysis.ts`). -/
structure BeatData where
  time : JNum
  intensity : JNum
  frequency : JNum
  type : BeatType
  duration : Option JNum := none
deriving DecidableEq

/-- `AudioAnalysisResult` from `audioAnalysis.ts`. -/
structure AudioAnalysisResult where
  bpm : JNum
  beats : List BeatData
  duration : JNum
  energy : List JNum
  spectralCentroid : List JNum := []
deriving DecidableEq

/-- `DifficultyLevel` from `types/difficulty.ts`. -/
inductive DifficultyLevel where
  | easy | medium | hard
deriving DecidableEq

/-- `DifficultySettings` from `types/difficulty.ts`. -/
structure DifficultySettings where
  level : DifficultyLevel
  speedMultiplier : JNum
  noteCapacity : JNum
  timingWindow : JNum
  holdNoteFrequency : JNum
  complexPatterns : Bool
deriving DecidableEq

/-- `PatternType` from `beatmapGenerator.ts`. -/
inductive PatternType where
  | euclidean | zigzag | syncopated | triplet | sparse | dense | template
deriving DecidableEq

/-- `SongSection` from `beatmapGenerator.ts`. -/
inductive SongSection where
  | intro | verse | chorus | bridge | outro
deriving DecidableEq

/-- The onset role tags used by `detectMusicalOnsets`. -/
inductive OnsetType where
  | drum | accent | melody
deriving DecidableEq

/-- A classified onset (`{ time, intensity, frequency, type }` in
`detectMusicalOnsets`). -/
structure Onset where
  time : JNum
  intensity : JNum
  frequency : JNum
  otype : OnsetType
deriving DecidableEq

/-- `EnhancedBeatData` from `beatmapGenerator.ts`.  Optional boolean fields
(`isAccent`, `isHold`) are modelled as `Bool` with `false` for `undefined`
(the code only ever reads them through truthiness); `sect` models the
field named `section`, a reserved word in Lean. -/
structure EnhancedBeatData where
  time : JNum
  intensity : JNum
  frequency : JNum
  type : BeatType
  lane : ℤ
  pattern : PatternType
  sect : SongSection
  isAccent : Bool := false
  isHold : Bool := false
  holdDuration : Option JNum := none
  templateName : Option String := none
  barIndex : Option ℕ := none
deriving DecidableEq

/-- `PatternTemplate` from `beatmapGenerator.ts`. -/
structure PatternTemplate where
  name : String
  steps : List ℤ
  duration : JNum
  holdSteps : Option (List ℕ) := none
  complexity : ℤ
deriving DecidableEq

/-- The `PATTERN_TEMPLATES` catalog, transcribed verbatim. -/
def PATTERN_TEMPLATES : List PatternTemplate := [
  { name := "IntroGentle", steps := [1, 2], duration := 4, complexity := 1 },
  { name := "WarmUp", steps := [0, 3, 1], duration := 3, complexity := 1 },
  { name := "LeftRightLeft", steps := [0, 3, 0, 3, 3, 0], duration := 3, complexity := 2 },
  { name := "SteadyBeat", steps := [1, 2, 1, 2], duration := 2, complexity := 2 },
  { name := "UpDownFlow", steps := [1, 2, 1, 2, 1], duration := 2.5, complexity := 2 },
  { name := "CrossPattern", steps := [0, 2, 3, 1], duration := 2, complexity := 2 },
  { name := "ChorusBlast", steps := [0, 3, 1, 2, 0, 3, 1, 2], duration := 2, complexity := 4 },
  { name := "PowerFlow", steps := [0, 1, 3, 2, 3, 1, 0, 2], duration := 2, complexity := 4 },
  { name := "EnergyWave", steps := [0, 1, 2, 3, 3, 2, 1, 0], duration := 2, complexity := 4 },
  { name := "IntenseRush", steps := [0, 2, 1, 3, 0, 2, 1, 3], duration := 1.5, complexity := 5 },
  { name := "BridgeFlow", steps := [1, 0, 2, 3, 2, 0], duration := 3, complexity := 3 },
  { name := "Transition", steps := [0, 1, 3, 2, 1], duration := 2.5, complexity := 3 },
  { name := "Syncopated", steps := [0, 1, 3, 2, 1], duration := 2.5, complexity := 3 },
  { name := "SustainedMelody", steps := [0, 1, 2, 3], duration := 4, holdSteps := some [1],
    complexity := 2 },
  { name := "MelodyHold", steps := [0, 1, 2], duration := 3, holdSteps := some [2],
    complexity := 2 },
  { name := "PowerHold", steps := [0, 1, 2, 3], duration := 4, holdSteps := some [3],
    complexity := 3 },
  { name := "FlowingHold", steps := [1, 3, 0, 2], duration := 3, holdSteps := some [1, 3],
    complexity := 3 },
  { name := "LeftMelody", steps := [0, 2, 3, 1], duration := 4, holdSteps := some [0],
    complexity := 2 },
  { name := "RightMelody", steps := [3, 1, 0, 2], duration := 4, holdSteps := some [3],
    complexity := 2 },
  { name := "AlternatingHolds", steps := [0, 3, 1, 2], duration := 3, holdSteps := some [0, 2],
    complexity := 2 },
  { name := "CrossHold", steps := [0, 2, 1, 3], duration := 3, holdSteps := some [1, 3],
    complexity := 3 },
  { name := "ZigzagHold", steps := [0, 3, 0, 3, 1, 2], duration := 3, holdSteps := some [0, 3],
    complexity := 3 },
  { name := "LeftRightCombo", steps := [0, 0, 3, 3, 1, 2], duration := 2.5,
    holdSteps := some [1, 4], complexity := 4 },
  { name := "UpDownFlow", steps := [1, 2, 1, 2, 0, 3], duration := 3, holdSteps := some [0, 3],
    complexity := 3 },
  { name := "DiagonalSweep", steps := [0, 1, 2, 3, 2, 1], duration := 3, holdSteps := some [2, 5],
    complexity := 4 },
  { name := "RepeatingLeft", steps := [0, 0, 0, 1, 2, 0], duration := 2, holdSteps := some [0, 2],
    complexity := 3 },
  { name := "RepeatingRight", steps := [3, 3, 3, 2, 1, 3], duration := 2, holdSteps := some [0, 2],
    complexity := 3 },
  { name := "MixedPattern", steps := [0, 3, 1, 2, 0, 3], duration := 2.5, holdSteps := some [1, 4],
    complexity := 4 },
  { name := "TripletFlow", steps := [0, 2, 1, 0, 2, 1], duration := 2, complexity := 3 },
  { name := "TripletWave", steps := [1, 3, 0, 2, 1, 3], duration := 2, complexity := 3 },
  { name := "OutroFade", steps := [1, 0, 2], duration := 4, complexity := 1 },
  { name := "Finale", steps := [0, 1, 2, 3], duration := 6, holdSteps := some [3],
    complexity := 2 }]

/-- One section of `SongStructure`. -/
structure SectionData where
  start : JNum
  stop : JNum
  type : SongSection
  energy : JNum
deriving DecidableEq

/-- `SongStructure` from `beatmapGenerator.ts` (`stop` models the field
named `end`, which is a reserved word in Lean). -/
structure SongStructure where
  sections : List SectionData
deriving DecidableEq

/-- A bar produced by `segmentIntoBars`. -/
structure Bar where
  startTime : JNum
  endTime : JNum
  onsets : List Onset
  energy : JNum
deriving DecidableEq

/-! ## Pattern memory (`src/utils/patternMemory.ts`) -/

/-- One entry of the key built by `createSequenceKey`: the string
`` `${lane}-${pattern}-${isHold ? 'H' : 'T'}` `` is modelled by the triple
it encodes (the encoding is injective: lanes print as decimal integers and
pattern names contain no separator characters). -/
def SeqEntry : Type := ℤ × PatternType × Bool
deriving instance DecidableEq for SeqEntry

/-- `PatternNGram` from `patternMemory.ts`.  The `context.timestamp` field
(`Date.now()`, wall-clock) is omitted: it is written once and never read. -/
structure PatternNGram where
  sequence : List SeqEntry
  frequency : ℕ
  lastUsed : ℕ
  ctxSection : SongSection
  ctxEnergy : JNum
deriving DecidableEq

/-- `PatternMemoryConfig` from `patternMemory.ts`. -/
structure PatternMemoryConfig where
  maxHistorySize : ℕ
  minRepetitionDistance : ℕ
  ngramSize : ℕ
  diversityThreshold : JNum
deriving DecidableEq

/-- The state of a `PatternMemory` object. -/
structure PatternMemory where
  patternHistory : List PatternNGram
  beatCounter : ℕ
  config : PatternMemoryConfig
deriving DecidableEq

/-- The constructor-applied configuration used by the generator
(`new PatternMemory({ minRepetitionDistance: 16, diversityThreshold: 0.75 })`
merged over the defaults). -/
def generatorMemoryConfig : PatternMemoryConfig :=
  { maxHistorySize := 200, minRepetitionDistance := 16, ngramSize := 4,
    diversityThreshold := 0.75 }

/-- `PatternMemory.reset` / the freshly constructed state. -/
def PatternMemory.reset (cfg : PatternMemoryConfig) : PatternMemory :=
  { patternHistory := [], beatCounter := 0, config := cfg }

/-- `createSequenceKey`. -/
def createSequenceKey (cfg : PatternMemoryConfig) (beats : List EnhancedBeatData) :
    List SeqEntry :=
  (beats.take cfg.ngramSize).map (fun b => (b.lane, b.pattern, b.isHold))

/-- Update the first element of a list satisfying a predicate (models a JS
in-place mutation of an element found by `Array.prototype.find`). -/
def updateFirst {α : Type} (p : α → Bool) (f : α → α) : List α → List α
  | [] => []
  | x :: xs => if p x then f x :: xs else x :: updateFirst p f xs

/-- The comparator score used by `pruneHistory`:
`frequency + (beatCounter - lastUsed) * 0.1`. -/
def pruneScore (beatCounter : ℕ) (p : PatternNGram) : JQ :=
  (JQ.ofInt p.frequency).add
    ((JQ.ofInt ((beatCounter : ℤ) - (p.lastUsed : ℤ))).mul (JQ.norm 1 10 (by omega)))

/-- Stable insertion sort with a boolean "strictly before" relation: an
element is inserted after every earlier element it is not strictly before.
This is the unique stable sort, hence models `Array.prototype.sort` with a
consistent comparator. -/
def stableInsert {α : Type} (before : α → α → Bool) (x : α) : List α → List α
  | [] => [x]
  | y :: ys => if before x y then x :: y :: ys else y :: stableInsert before x ys

/-- Stable sort (see `stableInsert`). -/
def stableSort {α : Type} (before : α → α → Bool) : List α → List α
  | [] => []
  | x :: xs => stableInsert before x (stableSort before xs)

/-- `pruneHistory` (`slice(-maxHistorySize * 0.8)` keeps the last
`trunc(maxHistorySize * 0.8)` entries of the ascending-by-score sort). -/
def PatternMemory.pruneHistory (m : PatternMemory) : PatternMemory :=
  if m.patternHistory.length > m.config.maxHistorySize then
    let sorted := stableSort
      (fun a b => (pruneScore m.beatCounter a).blt (pruneScore m.beatCounter b))
      m.patternHistory
    let keep := m.config.maxHistorySize * 8 / 10
    { m with patternHistory := sorted.drop (sorted.length - keep) }
  else m

/-- `recordPattern`. -/
def PatternMemory.recordPattern (m : PatternMemory) (beats : List EnhancedBeatData)
    (sect : SongSection) (energy : JNum) : PatternMemory :=
  if beats.length < m.config.ngramSize then m
  else
    let sequence := createSequenceKey m.config beats
    let found := m.patternHistory.any (fun p => decide (p.sequence = sequence))
    let history :=
      if found then
        updateFirst (fun p => decide (p.sequence = sequence))
          (fun p => { p with frequency := p.frequency + 1, lastUsed := m.beatCounter })
          m.patternHistory
      else
        m.patternHistory ++
          [{ sequence := sequence, frequency := 1, lastUsed := m.beatCounter,
             ctxSection := sect, ctxEnergy := energy }]
    PatternMemory.pruneHistory
      { m with patternHistory := history, beatCounter := m.beatCounter + beats.length }

/-- `wouldBeRepetitive`. -/
def PatternMemory.wouldBeRepetitive (m : PatternMemory) (beats : List EnhancedBeatData) : Bool :=
  if beats.length < m.config.ngramSize then false
  else
    let sequence := createSequenceKey m.config beats
    match m.patternHistory.find? (fun p => decide (p.sequence = sequence)) with
    | none => false
    | some existing =>
      let distanceSinceLastUse : ℤ := (m.beatCounter : ℤ) - (existing.lastUsed : ℤ)
      let isTooCIose := distanceSinceLastUse < (m.config.minRepetitionDistance : ℤ)
      let isTooFrequent := existing.frequency > 3
      decide isTooCIose || decide isTooFrequent

/-! ## Adaptive morpher (`src/utils/adaptivePatternMorphing.ts`) -/

/-- `MorphingConfig`. -/
structure MorphingConfig where
  rhythmicVariance : JNum
  spatialRotation : Bool
  densityBursts : Bool
  holdVariations : Bool
  laneChoreography : Bool
deriving DecidableEq

/-- The morpher configuration built in the generator's constructor. -/
def generatorMorphConfig (difficultySettings : DifficultySettings) : MorphingConfig :=
  { rhythmicVariance := 15, spatialRotation := true,
    densityBursts := difficultySettings.complexPatterns, holdVariations := true,
    laneChoreography := true }

/-- Map over a list threading the `Math.random()` call counter. -/
def mapRand {α β : Type} (f : α → JQ → β) (rng : ℕ → JQ) : List α → ℕ → List β × ℕ
  | [], ridx => ([], ridx)
  | x :: xs, ridx =>
    let y := f x (rng ridx)
    let (ys, ridx') := mapRand f rng xs (ridx + 1)
    (y :: ys, ridx')

/-- `AdaptivePatternMorpher.applyRhythmicVariance`: jitter every beat's time
by `(Math.random() - 0.5) * (variance / 1000)`. -/
def applyRhythmicVariance (cfg : MorphingConfig) (rng : ℕ → JQ)
    (beats : List EnhancedBeatData) (ridx : ℕ) : List EnhancedBeatData × ℕ :=
  if !cfg.rhythmicVariance.truthy then (beats, ridx)
  else
    mapRand
      (fun b r =>
        { b with time :=
            b.time + ((JNum.fin r - 0.5) * (cfg.rhythmicVariance / 1000)) })
      rng beats ridx

/-- Pair each element of a list with its successor (if any); used to embed
index-based lookahead such as `beats[index + 1]`. -/
def withNext {α : Type} : List α → List (α × Option α)
  | [] => []
  | [x] => [(x, none)]
  | x :: y :: xs => (x, some y) :: withNext (y :: xs)

/-- `AdaptivePatternMorpher.applyHoldVariations`. -/
def applyHoldVariations (cfg : MorphingConfig) (beats : List EnhancedBeatData) :
    List EnhancedBeatData :=
  if !cfg.holdVariations then beats
  else
    (withNext beats).map (fun bn =>
      let beat := bn.1
      if beat.isHold then
        let baseHoldDuration : JNum :=
          match beat.holdDuration with
          | some d => if d.truthy then d else (0.5 : JNum)
          | none => (0.5 : JNum)
        let newHoldDuration : JNum :=
          if beat.sect = SongSection.chorus ∨ beat.sect = SongSection.bridge then
            baseHoldDuration * (1.2 : JNum)
          else baseHoldDuration
        let hasReleasePattern :=
          match bn.2 with
          | some nxt => (nxt.time - beat.time).jlt (newHoldDuration + (0.1 : JNum))
          | none => false
        { beat with
          holdDuration := some (newHoldDuration.jmin (2.0 : JNum)),
          templateName := if hasReleasePattern then some "complex-hold" else beat.templateName }
      else beat)

/-! ## Beatmap analyzer (`src/utils/beatmapAnalytics.ts`) -/

/-- Embed a natural number count as a JS number. -/
def jnat (n : ℕ) : JNum := JNum.int n

/-- JS `array.reduce((a, b) => a + b, 0)`. -/
def jsum (l : List JNum) : JNum := l.foldl JNum.add 0

/-- JS `Math.max(...l)` (`-Infinity` for an empty spread). -/
def jmaxList (l : List JNum) : JNum := l.foldl JNum.jmax JNum.ninf

/-- JS `Math.min(...l)` (`Infinity` for an empty spread). -/
def jminList (l : List JNum) : JNum := l.foldl JNum.jmin JNum.pinf

/-- Consecutive pairs `(l[i-1], l[i])`, used to embed `for (i = 1; ...)`
loops over adjacent elements. -/
def pairsOf {α : Type} : List α → List (α × α)
  | [] => []
  | [_] => []
  | x :: y :: xs => (x, y) :: pairsOf (y :: xs)

/-- `new Set(l).size`. -/
def distinctCount {α : Type} [DecidableEq α] (l : List α) : ℕ :=
  (l.foldl (fun seen x => if x ∈ seen then seen else seen ++ [x]) []).length

/-- Insert-or-increment in an insertion-ordered association list (JS
`Map.set(k, (Map.get(k) || 0) + 1)`). -/
def bumpCount {α : Type} [DecidableEq α] (m : List (α × ℕ)) (k : α) : List (α × ℕ) :=
  if m.any (fun e => decide (e.1 = k)) then
    updateFirst (fun e => decide (e.1 = k)) (fun e => (e.1, e.2 + 1)) m
  else m ++ [(k, 1)]

/-- Append to the index list of a key in an insertion-ordered association
list (JS `Map.get(k).push(i)` after a `Map.set(k, [])` default). -/
def pushIdx {α : Type} [DecidableEq α] (m : List (α × List ℕ)) (k : α) (i : ℕ) :
    List (α × List ℕ) :=
  if m.any (fun e => decide (e.1 = k)) then
    updateFirst (fun e => decide (e.1 = k)) (fun e => (e.1, e.2 ++ [i])) m
  else m ++ [(k, [i])]

/-- `array.slice(i, i + n)`. -/
def sliceLN {α : Type} (l : List α) (i n : ℕ) : List α := (l.drop i).take n

/-- `DiversityMetrics`. -/
structure DiversityMetrics where
  patternEntropy : JNum
  ngramDiversity : JNum
  repetitionDistance : JNum
  laneBalance : JNum
  holdVariety : JNum
deriving DecidableEq

/-- `ErgonomicsMetrics`. -/
structure ErgonomicsMetrics where
  handAlternation : JNum
  jumpDistance : JNum
  restFrequency : JNum
  staminaLoad : JNum
  readabilityScore : JNum
deriving DecidableEq

/-- `MusicalityMetrics`. -/
structure MusicalityMetrics where
  beatAlignment : JNum
  accentEmphasis : JNum
  phraseCoherence : JNum
  dynamicRange : JNum
deriving DecidableEq

/-- `PerformanceMetrics`. -/
structure PerformanceMetrics where
  complexity : JNum
  peakIntensity : JNum
  learningCurve : JNum
  replayability : JNum
deriving DecidableEq

/-- `BeatmapAnalytics`. -/
structure BeatmapAnalytics where
  diversityMetrics : DiversityMetrics
  ergonomicsMetrics : ErgonomicsMetrics
  musicalityMetrics : MusicalityMetrics
  performanceMetrics : PerformanceMetrics
deriving DecidableEq

/-- A default `EnhancedBeatData`, used only for out-of-range array reads
that cannot occur (e.g. the first element of a provably nonempty window). -/
def defaultBeat : EnhancedBeatData :=
  { time := 0, intensity := 0, frequency := 0, type := BeatType.kick, lane := 0,
    pattern := PatternType.template, sect := SongSection.intro }

/-- `BeatmapAnalyzer.extractNGrams` (the n-gram strings are modelled by the
lists of triples they encode, as in `createSequenceKey`). -/
def extractNGrams (beats : List EnhancedBeatData) (n : ℕ) : List (List SeqEntry) :=
  (List.range (beats.length + 1 - n)).map (fun i =>
    (sliceLN beats i n).map (fun b => (b.lane, b.pattern, b.isHold)))

/-- `BeatmapAnalyzer.analyzeDiversity`.  `Math.log2` is not a rational
operation; it is passed in as the parameter `log2`, which the theorems
constrain only at the arguments actually used. -/
def analyzeDiversity (log2 : JNum → JNum) (beats : List EnhancedBeatData) : DiversityMetrics :=
  let ngramSize := 4
  let ngrams := extractNGrams beats ngramSize
  let uniqueNGrams := distinctCount ngrams
  let patternCounts := ngrams.foldl bumpCount []
  let totalPatterns := ngrams.length
  let entropy := patternCounts.foldl
    (fun e c =>
      let probability := jnat c.2 / jnat totalPatterns
      e - (probability * log2 probability)) 0
  let patternIndices := ngrams.enum.foldl (fun m p => pushIdx m p.2 p.1) ([] : List (List SeqEntry × List ℕ))
  let repetitionDistances : List ℕ := patternIndices.foldl
    (fun acc e => acc ++ (pairsOf e.2).map (fun p => p.2 - p.1)) []
  let avgRepetitionDistance : JNum :=
    if repetitionDistances.length > 0 then
      jnat repetitionDistances.sum / jnat repetitionDistances.length
    else JNum.pinf
  let laneCount : ℤ → ℕ := fun k => beats.countP (fun b => decide (b.lane = k))
  let idealRatio := jnat beats.length / 4
  let laneBalance := (1 : JNum) -
    (jsum ([0, 1, 2, 3].map (fun k => (jnat (laneCount k) - idealRatio).jabs)) /
      jnat beats.length)
  let holdPatterns := (beats.filter (fun b => b.isHold)).map (fun b =>
    let hd : JNum := match b.holdDuration with
      | some d => if d.truthy then d else 0
      | none => 0
    (b.lane, (hd * 10).jfloor))
  let uniqueHoldPatterns := distinctCount holdPatterns
  let holdVariety : JNum :=
    if holdPatterns.length > 0 then jnat uniqueHoldPatterns / jnat holdPatterns.length else 0
  { patternEntropy := entropy / log2 (JNum.jmin (jnat totalPatterns) 16),
    ngramDiversity := jnat uniqueNGrams / jnat (max ngrams.length 1),
    repetitionDistance := JNum.jmin (avgRepetitionDistance / 16) 1,
    laneBalance := laneBalance,
    holdVariety := holdVariety }

/-- `BeatmapAnalyzer.analyzeErgonomics`. -/
def analyzeErgonomics (beats : List EnhancedBeatData) : ErgonomicsMetrics :=
  if beats.length < 2 then
    { handAlternation := 1, jumpDistance := 0, restFrequency := 1, staminaLoad := 0,
      readabilityScore := 1 }
  else
    let prs := pairsOf beats
    let alternationCount := prs.countP (fun p => decide ((p.1.lane < 2) ≠ (p.2.lane < 2)))
    let handAlternation := jnat alternationCount / jnat (beats.length - 1)
    let jumpDistances := prs.map (fun p => (p.2.lane - p.1.lane).natAbs)
    let avgJumpDistance := jnat jumpDistances.sum / jnat jumpDistances.length
    let restPeriods := (prs.map (fun p => p.2.time - p.1.time)).filter
      (fun d => JNum.jlt 0.5 d)
    let restFrequency := jnat restPeriods.length / jnat beats.length
    let windowSize := 10
    let maxStaminaLoad := ((List.range (beats.length + 1 - windowSize)).map (fun i =>
      let window := sliceLN beats i windowSize
      let windowDuration := ((window.getLastD defaultBeat).time) - ((window.headD defaultBeat).time)
      jnat window.length / JNum.jmax windowDuration 0.1)).foldl JNum.jmax 0
    let readabilityFactors := prs.map (fun p =>
      let timeDiff := p.2.time - p.1.time
      let laneDiff := (p.2.lane - p.1.lane).natAbs
      let timingScore := JNum.jmin (timeDiff / 0.2) 1
      let laneScore := (1 : JNum) - (jnat laneDiff / 3)
      (timingScore + laneScore) / 2)
    let readabilityScore := jsum readabilityFactors / jnat readabilityFactors.length
    { handAlternation := handAlternation,
      jumpDistance := JNum.jmin (avgJumpDistance / 3) 1,
      restFrequency := JNum.jmin (restFrequency * 5) 1,
      staminaLoad := JNum.jmin (maxStaminaLoad / 10) 1,
      readabilityScore := readabilityScore }

/-- `BeatmapAnalyzer.findSectionChanges`. -/
def findSectionChanges (beats : List EnhancedBeatData) : List ℕ :=
  (beats.enum.foldl
    (fun st p =>
      if decide (some p.2.sect ≠ st.2) then (st.1 ++ [p.1], some p.2.sect) else st)
    (([] : List ℕ), beats.head?.map (fun b => b.sect))).1

/-- `BeatmapAnalyzer.analyzeMusicality`. -/
def analyzeMusicality (beats : List EnhancedBeatData) : MusicalityMetrics :=
  let sectionChanges := findSectionChanges beats
  let strongBeats := beats.countP
    (fun b => decide (b.type = BeatType.bass) || JNum.jlt 0.7 b.intensity)
  let beatAlignment := jnat strongBeats / jnat (max beats.length 1)
  let accentBeats := beats.countP (fun b => b.isAccent || JNum.jlt 0.8 b.intensity)
  let accentEmphasis := jnat accentBeats / jnat (max beats.length 1)
  let phraseBreaks := sectionChanges.length
  let avgPhraseLength := jnat beats.length / jnat (max phraseBreaks 1)
  let phraseCoherence := JNum.jmin (avgPhraseLength / 16) 1
  let intensities := beats.map (fun b => b.intensity)
  let dynamicRange := jmaxList intensities - jminList intensities
  { beatAlignment := beatAlignment, accentEmphasis := accentEmphasis,
    phraseCoherence := phraseCoherence, dynamicRange := dynamicRange }

/-- `BeatmapAnalyzer.calculateVariance`. -/
def calculateVariance (values : List JNum) : JNum :=
  if values.length = 0 then 0
  else
    let mean := jsum values / jnat values.length
    (values.foldl (fun s v => s + (v - mean) * (v - mean)) 0) / jnat values.length

/-- `BeatmapAnalyzer.calculateTimingComplexity`. -/
def calculateTimingComplexity (beats : List EnhancedBeatData) : JNum :=
  if beats.length < 2 then 0
  else
    let intervals := (pairsOf beats).map (fun p => p.2.time - p.1.time)
    let avgInterval := jsum intervals / jnat intervals.length
    let variance := calculateVariance intervals
    JNum.jmin (variance / avgInterval) 1

/-- `BeatmapAnalyzer.calculateWindowDifficulty`. -/
def calculateWindowDifficulty (window : List EnhancedBeatData) : JNum :=
  if window.length = 0 then 0
  else
    let avgIntensity := jsum (window.map (fun b => b.intensity)) / jnat window.length
    let laneChanges := (pairsOf window).countP (fun p => decide (p.2.lane ≠ p.1.lane))
    let holdCount := window.countP (fun b => b.isHold)
    (avgIntensity + (jnat laneChanges / jnat window.length) +
      (jnat holdCount / jnat window.length)) / 3

/-- `BeatmapAnalyzer.calculateDifficultyProgression` (window 30, step 15). -/
def calculateDifficultyProgression (beats : List EnhancedBeatData) : List JNum :=
  let windowSize := 30
  if beats.length < windowSize then []
  else
    (List.range ((beats.length - windowSize) / 15 + 1)).map (fun k =>
      calculateWindowDifficulty (sliceLN beats (15 * k) windowSize))

/-- `BeatmapAnalyzer.analyzePerformance`. -/
def analyzePerformance (beats : List EnhancedBeatData) : PerformanceMetrics :=
  let laneChanges := (pairsOf beats).countP (fun p => decide (p.2.lane ≠ p.1.lane))
  let holdComplexity := jnat (beats.countP (fun b => b.isHold)) / jnat beats.length
  let timingComplexity := calculateTimingComplexity beats
  let complexity := (jnat laneChanges / jnat beats.length + holdComplexity +
    timingComplexity) / 3
  let windowSize := 20
  let peakIntensity := ((List.range (beats.length + 1 - windowSize)).map (fun i =>
    let window := sliceLN beats i windowSize
    jsum (window.map (fun b => b.intensity)) / jnat window.length)).foldl JNum.jmax 0
  let difficultyProgression := calculateDifficultyProgression beats
  let learningCurve := (1 : JNum) - calculateVariance difficultyProgression
  let patternTypes := distinctCount (beats.map (fun b => b.pattern))
  let templateVariety := distinctCount
    ((beats.filterMap (fun b => b.templateName)).filter (fun s => decide (s ≠ "")))
  let replayability := (jnat patternTypes + jnat templateVariety) /
    (jnat beats.length * 0.1)
  { complexity := JNum.jmin complexity 1,
    peakIntensity := peakIntensity,
    learningCurve := JNum.jmax learningCurve 0,
    replayability := JNum.jmin replayability 1 }

/-- `BeatmapAnalyzer.analyze`. -/
def BeatmapAnalyzer.analyze (log2 : JNum → JNum) (beats : List EnhancedBeatData) :
    BeatmapAnalytics :=
  { diversityMetrics := analyzeDiversity log2 beats,
    ergonomicsMetrics := analyzeErgonomics beats,
    musicalityMetrics := analyzeMusicality beats,
    performanceMetrics := analyzePerformance beats }

/-- `BeatmapAnalyzer.generateQualityScore`. -/
def generateQualityScore (analytics : BeatmapAnalytics) : JNum :=
  let diversityScore :=
    analytics.diversityMetrics.patternEntropy * 0.3 +
    analytics.diversityMetrics.ngramDiversity * 0.3 +
    analytics.diversityMetrics.repetitionDistance * 0.2 +
    analytics.diversityMetrics.laneBalance * 0.2
  let ergonomicsScore :=
    analytics.ergonomicsMetrics.handAlternation * 0.3 +
    ((1 : JNum) - analytics.ergonomicsMetrics.jumpDistance) * 0.2 +
    analytics.ergonomicsMetrics.restFrequency * 0.2 +
    ((1 : JNum) - analytics.ergonomicsMetrics.staminaLoad) * 0.15 +
    analytics.ergonomicsMetrics.readabilityScore * 0.15
  let musicalityScore :=
    analytics.musicalityMetrics.beatAlignment * 0.3 +
    analytics.musicalityMetrics.accentEmphasis * 0.25 +
    analytics.musicalityMetrics.phraseCoherence * 0.25 +
    analytics.musicalityMetrics.dynamicRange * 0.2
  let performanceScore :=
    analytics.performanceMetrics.complexity * 0.25 +
    analytics.performanceMetrics.peakIntensity * 0.25 +
    analytics.performanceMetrics.learningCurve * 0.25 +
    analytics.performanceMetrics.replayability * 0.25
  let totalScore :=
    diversityScore * 0.25 + ergonomicsScore * 0.25 + musicalityScore * 0.25 +
    performanceScore * 0.25
  (totalScore * 100).jround

/-! ## Beatmap generator (`src/utils/beatmapGenerator.ts`) -/

/-- ASCII lower-casing of one character (template names are ASCII). -/
def lcChar (c : Char) : Char :=
  if 65 ≤ c.toNat ∧ c.toNat ≤ 90 then Char.ofNat (c.toNat + 32) else c

/-- Check that `pat` is an initial segment of `txt`. -/
def headMatch : List Char → List Char → Bool
  | [], _ => true
  | _ :: _, [] => false
  | p :: ps, c :: cs => p == c && headMatch ps cs

/-- Substring containment on character lists (JS `String.includes`). -/
def hasSub (txt : List Char) (pat : List Char) : Bool :=
  match txt with
  | [] => headMatch pat []
  | _ :: rest => headMatch pat txt || hasSub rest pat

/-- `t.name.toLowerCase().includes(pat)` for a lower-case literal `pat`. -/
def nameIncludes (name : String) (pat : String) : Bool :=
  hasSub (name.data.map lcChar) pat.data

/-- JS `%` on integers (remainder with the sign of the dividend). -/
def jsMod (a b : ℤ) : ℤ := Int.tmod a b

/-- `BeatmapGenerator.calculateSpeedMultiplier`. -/
def calculateSpeedMultiplier (audioAnalysis : AudioAnalysisResult)
    (difficultySettings : DifficultySettings) : JNum :=
  let avgEnergy := jsum audioAnalysis.energy / jnat audioAnalysis.energy.length
  let bpm := audioAnalysis.bpm
  let m0 := difficultySettings.speedMultiplier
  let m1 :=
    if JNum.jlt 140 bpm then m0 + 0.15
    else if JNum.jlt 120 bpm then m0 + 0.1
    else if JNum.jlt bpm 80 then m0 + 0.05
    else m0
  let m2 :=
    if JNum.jlt 0.8 avgEnergy then m1 + 0.1
    else if JNum.jlt 0.6 avgEnergy then m1 + 0.05
    else m1
  JNum.jmax 0.8 (JNum.jmin 1.4 m2)

/-- `BeatmapGenerator.detectMusicalOnsets`. -/
def detectMusicalOnsets (rawBeats : List BeatData) : List Onset :=
  let drums := rawBeats.filter (fun b => JNum.jlt b.frequency 250)
  let snare := rawBeats.filter (fun b =>
    JNum.jle 150 b.frequency && JNum.jlt b.frequency 500)
  let melody := rawBeats.filter (fun b =>
    JNum.jle 300 b.frequency && JNum.jlt b.frequency 3000)
  let accents := rawBeats.filter (fun b => JNum.jle 2000 b.frequency)
  let mk : OnsetType → BeatData → Onset := fun t b =>
    { time := b.time, intensity := b.intensity, frequency := b.frequency, otype := t }
  drums.map (mk OnsetType.drum) ++ snare.map (mk OnsetType.drum) ++
    melody.map (mk OnsetType.melody) ++ accents.map (mk OnsetType.accent)

/-- One bar of `segmentIntoBars` at start time `t`. -/
def mkBar (onsets : List Onset) (barDuration totalDuration t : JNum) : Bar :=
  let barOnsets := onsets.filter (fun o =>
    JNum.jle t o.time && JNum.jlt o.time (t + barDuration))
  let energy := jsum (barOnsets.map (fun o => o.intensity)) / jnat (max 1 barOnsets.length)
  { startTime := t, endTime := JNum.jmin (t + barDuration) totalDuration,
    onsets := barOnsets, energy := energy }

/-- The fuelled embedding of the `for (time = 0; time < totalDuration;
time += barDuration)` loop. -/
def segmentLoop (onsets : List Onset) (barDuration totalDuration : JNum) :
    ℕ → JNum → List Bar
  | 0, _ => []
  | fuel + 1, t =>
    if JNum.jlt t totalDuration then
      mkBar onsets barDuration totalDuration t ::
        segmentLoop onsets barDuration totalDuration fuel (t + barDuration)
    else []

/-- Fuel sufficient for `segmentLoop`: with a finite positive bar duration
and finite total duration the loop runs `ceil(totalDuration/barDuration)`
times; in every other terminating case it runs at most once. -/
def segmentFuel (barDuration totalDuration : JNum) : ℕ :=
  match barDuration, totalDuration with
  | JNum.fin b, JNum.fin d =>
    if (JQ.ofInt 0).blt b then (d.div b).floorI.toNat + 2 else 2
  | _, _ => 2

/-- `BeatmapGenerator.segmentIntoBars`. -/
def segmentIntoBars (onsets : List Onset) (bpm totalDuration : JNum) : List Bar :=
  let barDuration := ((60 : JNum) / bpm) * 4
  segmentLoop onsets barDuration totalDuration (segmentFuel barDuration totalDuration) 0

/-- `BeatmapGenerator.determineSectionType`.  The `sectionIndex` parameter
exists in the source but is unused by its body. -/
def determineSectionType (energy timePosition totalDuration : JNum) (_sectionIndex : ℕ) :
    SongSection :=
  let progress := timePosition / totalDuration
  if JNum.jlt progress 0.15 then SongSection.intro
  else if JNum.jlt 0.85 progress then SongSection.outro
  else if JNum.jlt 0.75 energy then SongSection.chorus
  else if JNum.jlt energy 0.35 then SongSection.bridge
  else SongSection.verse

/-- Loop state of `analyzeSongStructure`. -/
structure StructState where
  sections : List SectionData
  currentSectionStart : JNum
  currentSectionType : SongSection
  lastSectionEnergy : JNum
deriving DecidableEq

/-- The fuelled embedding of the windowed energy walk in
`analyzeSongStructure` (`for (i = ws; i < energy.length - ws; i += ws)`). -/
def structLoop (energy : List JNum) (duration : JNum) (ws : ℕ) :
    ℕ → ℕ → StructState → StructState
  | 0, _, st => st
  | fuel + 1, i, st =>
    if (i : ℤ) < (energy.length : ℤ) - (ws : ℤ) then
      let currentEnergy := jsum (sliceLN energy i ws) / jnat ws
      let energyChange := (currentEnergy - st.lastSectionEnergy).jabs
      let timePosition := (jnat i / jnat energy.length) * duration
      let st' :=
        if JNum.jlt 0.15 energyChange then
          let sections' := st.sections ++
            [{ start := st.currentSectionStart, stop := timePosition,
               type := st.currentSectionType, energy := st.lastSectionEnergy }]
          { sections := sections',
            currentSectionStart := timePosition,
            currentSectionType :=
              determineSectionType currentEnergy timePosition duration sections'.length,
            lastSectionEnergy := currentEnergy }
        else st
      structLoop energy duration ws fuel (i + ws) st'
    else st

/-- `BeatmapGenerator.analyzeSongStructure`. -/
def analyzeSongStructure (energy : List JNum) (duration : JNum) : SongStructure :=
  let energyWindowSize := max 10 (energy.length / 20)
  let st0 : StructState :=
    { sections := [],
      currentSectionStart := 0,
      currentSectionType := SongSection.intro,
      lastSectionEnergy := jsum (energy.take energyWindowSize) / jnat energyWindowSize }
  let st := structLoop energy duration energyWindowSize (energy.length + 1)
    energyWindowSize st0
  { sections := st.sections ++
      [{ start := st.currentSectionStart, stop := duration,
         type := if JNum.jlt (duration - st.currentSectionStart) 20 then SongSection.outro
                 else st.currentSectionType,
         energy := st.lastSectionEnergy }] }

/-- `BeatmapGenerator.getSectionForTime`. -/
def getSectionForTime (time : JNum) (struct : SongStructure) : SongSection :=
  match struct.sections.find? (fun s => JNum.jle s.start time && JNum.jlt time s.stop) with
  | some s => s.type
  | none => SongSection.verse

/-- `BeatmapGenerator.getSectionEnergy`. -/
def getSectionEnergy (audioAnalysis : AudioAnalysisResult) (time : JNum) : JNum :=
  if audioAnalysis.energy.length = 0 then 0.5
  else
    let energyIndex := ((time / audioAnalysis.duration) *
      jnat audioAnalysis.energy.length).jfloor
    let safeIndex := JNum.jmax 0
      (JNum.jmin energyIndex (jnat (audioAnalysis.energy.length - 1)))
    match safeIndex with
    | JNum.fin q =>
      match audioAnalysis.energy.get? q.floorI.toNat with
      | some x => if x.truthy then x else 0.5
      | none => 0.5
    | _ => 0.5

/-- `BeatmapGenerator.calculateHarmonicContour`. -/
def calculateHarmonicContour (bar : Bar) : List JNum :=
  if bar.onsets.length > 0 then
    let frequencies := bar.onsets.map (fun o => if o.frequency.truthy then o.frequency else 200)
    let minFreq := jminList frequencies
    let maxFreq := jmaxList frequencies
    let freqRange := maxFreq - minFreq
    frequencies.map (fun freq =>
      if JNum.jlt 0 freqRange then (freq - minFreq) / freqRange else 0.5)
  else []

/-- `BeatmapGenerator.findNearestOnset`. -/
def findNearestOnset (onsets : List Onset) (targetTime tolerance : JNum) : Option Onset :=
  (onsets.foldl
    (fun st o =>
      let distance := (o.time - targetTime).jabs
      if JNum.jlt distance st.2 then (some o, distance) else st)
    ((none : Option Onset), tolerance)).1

/-- `BeatmapGenerator.findSustainedOnsets`. -/
def findSustainedOnsets (onsets : List Onset) (targetTime tolerance : JNum) : List Onset :=
  onsets.filter (fun o =>
    JNum.jle ((o.time - targetTime).jabs) tolerance &&
    decide (o.otype = OnsetType.melody) && JNum.jlt 0.6 o.intensity)

/-- The default used by `getFrequencyForOnset`/`getIntensityForOnset` when
the onset list is empty. -/
def fallbackOnset (targetTime : JNum) : Onset :=
  { time := targetTime, intensity := 0.5, frequency := 440, otype := OnsetType.drum }

/-- `BeatmapGenerator.getFrequencyForOnset`. -/
def getFrequencyForOnset (onsets : List Onset) (targetTime : JNum) : JNum :=
  (onsets.foldl
    (fun closest o =>
      if JNum.jlt ((o.time - targetTime).jabs) ((closest.time - targetTime).jabs) then o
      else closest)
    (onsets.headD (fallbackOnset targetTime))).frequency

/-- `BeatmapGenerator.getIntensityForOnset`. -/
def getIntensityForOnset (onsets : List Onset) (targetTime : JNum) : JNum :=
  (onsets.foldl
    (fun closest o =>
      if JNum.jlt ((o.time - targetTime).jabs) ((closest.time - targetTime).jabs) then o
      else closest)
    (onsets.headD (fallbackOnset targetTime))).intensity

/-- `BeatmapGenerator.getBeatTypeForSection`. -/
def getBeatTypeForSection : SongSection → BeatType
  | SongSection.chorus => BeatType.kick
  | SongSection.bridge => BeatType.snare
  | _ => BeatType.kick

/-- The mutable generator state threaded through the per-bar loop. -/
structure GenSt where
  currentTemplate : Option PatternTemplate
  templateRotationIndex : ℕ
  lastSectionType : Option SongSection
  memory : PatternMemory
  ridx : ℕ
deriving DecidableEq

/-- Fallback template for array reads that cannot be out of range. -/
def defaultTemplate : PatternTemplate :=
  { name := "IntroGentle", steps := [1, 2], duration := 4, complexity := 1 }

/-- The candidate-template computation inside
`BeatmapGenerator.selectNewTemplateForSection` (the `sectionTemplates` /
`energyFilteredTemplates` / `availableTemplates` chain). -/
def selectCandidates (sect : SongSection) (energy : JNum) : List PatternTemplate :=
  let sectionTemplates := PATTERN_TEMPLATES.filter (fun t =>
    match sect with
    | SongSection.intro =>
      nameIncludes t.name "intro" || nameIncludes t.name "warmup" || decide (t.complexity ≤ 2)
    | SongSection.outro =>
      nameIncludes t.name "outro" || nameIncludes t.name "finale" ||
        nameIncludes t.name "fade" || decide (t.complexity ≤ 2)
    | SongSection.chorus =>
      nameIncludes t.name "chorus" || nameIncludes t.name "power" ||
        nameIncludes t.name "energy" || nameIncludes t.name "intense" ||
        decide (t.complexity ≥ 3)
    | SongSection.bridge =>
      nameIncludes t.name "bridge" || nameIncludes t.name "transition" ||
        nameIncludes t.name "syncopated" ||
        (decide (t.complexity ≥ 2) && decide (t.complexity ≤ 4))
    | SongSection.verse =>
      nameIncludes t.name "steady" || nameIncludes t.name "flow" ||
        nameIncludes t.name "cross" || nameIncludes t.name "leftright" ||
        (decide (t.complexity ≥ 2) && decide (t.complexity ≤ 3)))
  let hasHolds : PatternTemplate → Bool := fun t =>
    match t.holdSteps with
    | some hs => hs.length > 0
    | none => false
  let energyFilteredTemplates :=
    if JNum.jlt 0.6 energy then
      if (sectionTemplates.filter hasHolds).length > 0 then sectionTemplates.filter hasHolds
      else sectionTemplates
    else sectionTemplates
  if energyFilteredTemplates.length > 0 then energyFilteredTemplates
  else PATTERN_TEMPLATES.filter (fun t => decide (t.complexity ≤ 3))

/-- `BeatmapGenerator.selectNewTemplateForSection`. -/
def selectNewTemplateForSection (sect : SongSection) (energy : JNum) (st : GenSt) : GenSt :=
  let availableTemplates := selectCandidates sect energy
  let t := availableTemplates.getD
    (st.templateRotationIndex % availableTemplates.length) defaultTemplate
  { st with currentTemplate := some t,
            templateRotationIndex := st.templateRotationIndex + 1 }

/-- The `repeatCount` of a template:
`Math.max(1, Math.floor(beatsPerBar / patternBeats))` with `beatsPerBar`
the constant 4. -/
def rcOf (t : PatternTemplate) : JNum :=
  JNum.jmax 1 (((4 : JNum) / t.duration).jfloor)

/-- The proportional grid time of one template step
(`bar.startTime + totalProgress * barDuration`). -/
def stepT0 (bar : Bar) (template : PatternTemplate) (rep stepIndex : ℕ) : JNum :=
  let barDuration := bar.endTime - bar.startTime
  let patternProgress := jnat stepIndex / jnat template.steps.length
  let repeatProgress := jnat rep / rcOf template
  let totalProgress := repeatProgress + (patternProgress / rcOf template)
  bar.startTime + (totalProgress * barDuration)

/-- The onset-snapped time of one template step. -/
def stepTime (bar : Bar) (template : PatternTemplate) (rep stepIndex : ℕ) : JNum :=
  match findNearestOnset bar.onsets (stepT0 bar template rep stepIndex) 0.15 with
  | some o => o.time
  | none => stepT0 bar template rep stepIndex

/-- `nextStepTime` of one template step. -/
def stepNextTime (bar : Bar) (template : PatternTemplate) (rep stepIndex : ℕ) : JNum :=
  let barDuration := bar.endTime - bar.startTime
  let repeatProgress := jnat rep / rcOf template
  if stepIndex + 1 < template.steps.length then
    bar.startTime + ((repeatProgress +
      (jnat (stepIndex + 1) / jnat template.steps.length / rcOf template)) * barDuration)
  else bar.endTime

/-- Whether a step index is one of the template's hold steps
(`template.holdSteps?.includes(stepIndex) || false`). -/
def stepIsHold (template : PatternTemplate) (stepIndex : ℕ) : Bool :=
  match template.holdSteps with
  | some hs => hs.contains stepIndex
  | none => false

/-- The dynamic hold duration of one hold step. -/
def stepHoldDuration (bar : Bar) (template : PatternTemplate) (rep stepIndex : ℕ) :
    Option JNum :=
  let barDuration := bar.endTime - bar.startTime
  let time := stepTime bar template rep stepIndex
  if stepIsHold template stepIndex then
    let sustainedOnsets := findSustainedOnsets bar.onsets time 0.3
    if sustainedOnsets.length > 0 then
      some (JNum.jmin
        (JNum.jmin
          (sustainedOnsets.foldl
            (fun mx o => JNum.jmax mx (o.intensity * 2)) 0.5)
          (barDuration - (time - bar.startTime)))
        3.0)
    else
      let baseHoldDuration := (stepNextTime bar template rep stepIndex - time) * 1.2
      let energyMultiplier := (0.8 : JNum) + (bar.energy * 0.6)
      some (JNum.jmin (baseHoldDuration * energyMultiplier)
        (barDuration - (time - bar.startTime)))
  else none

/-- The (possibly rotated) lane of one template step. -/
def stepFinalLane (sect : SongSection) (template : PatternTemplate) (rep stepIndex : ℕ)
    (lane : ℤ) : ℤ :=
  if stepIsHold template stepIndex && decide (rep > 0) then
    let laneRotation : List ℤ :=
      if sect = SongSection.chorus then [0, 2, 1, 3] else [1, 3, 0, 2]
    laneRotation.getD (rep % laneRotation.length) 0
  else lane

/-- The intensity of one template step. -/
def stepIntensity (bar : Bar) (template : PatternTemplate) (rep stepIndex : ℕ) : JNum :=
  match findNearestOnset bar.onsets (stepT0 bar template rep stepIndex) 0.15 with
  | some o => o.intensity
  | none => getIntensityForOnset bar.onsets (stepTime bar template rep stepIndex)

/-- The per-step body of `BeatmapGenerator.generateTemplateBasedPattern`
(one `template.steps.forEach` iteration; the pushed beat, if any). -/
def templateStepBeats (bar : Bar) (sect : SongSection) (barIndex : ℕ)
    (template : PatternTemplate) (rep : ℕ) (stepPair : ℕ × ℤ) : List EnhancedBeatData :=
  let stepIndex := stepPair.1
  let time := stepTime bar template rep stepIndex
  if JNum.jlt time bar.endTime then
    let intensity := stepIntensity bar template rep stepIndex
    [{ time := time,
       intensity := intensity,
       frequency := getFrequencyForOnset bar.onsets time,
       type := getBeatTypeForSection sect,
       lane := stepFinalLane sect template rep stepIndex stepPair.2,
       pattern := PatternType.template,
       sect := sect,
       isAccent := decide (stepIndex = 0) || JNum.jlt 0.8 intensity,
       isHold := stepIsHold template stepIndex,
       holdDuration := stepHoldDuration bar template rep stepIndex,
       templateName := some template.name,
       barIndex := some barIndex }]
  else []

/-- `BeatmapGenerator.generateTemplateBasedPattern` (the per-step body is
`templateStepBeats`). -/
def generateTemplateBasedPattern (bpm speedMultiplier : JNum) (bar : Bar)
    (sect : SongSection) (barIndex : ℕ) (st : GenSt) : List EnhancedBeatData × GenSt :=
  let st1 :=
    match st.currentTemplate with
    | none => selectNewTemplateForSection sect bar.energy st
    | some _ => st
  let template := st1.currentTemplate.getD defaultTemplate
  let _beatDuration := ((60 : JNum) / bpm) / speedMultiplier
  let repeatCountJ := rcOf template
  let beats := (List.range repeatCountJ.toN).foldl (fun acc rep =>
    acc ++ (template.steps.enum.foldl (fun acc2 stepPair =>
      acc2 ++ templateStepBeats bar sect barIndex template rep stepPair) [])) []
  (beats, st1)

/-- The novelty-budget map built in the generator's constructor. -/
def noveltyBudget : List (SongSection × JNum) :=
  [(SongSection.intro, 0.3), (SongSection.verse, 0.5), (SongSection.chorus, 0.8),
   (SongSection.bridge, 0.9), (SongSection.outro, 0.4)]

/-- `this.noveltyBudget.get(section) || 0.5`. -/
def noveltyFor (sect : SongSection) : JNum :=
  match noveltyBudget.find? (fun e => decide (e.1 = sect)) with
  | some e => if e.2.truthy then e.2 else 0.5
  | none => 0.5

/-- `BeatmapGenerator.applyAdaptiveMorphing` (delegates to the morpher's
rhythmic variance; the section, energy and contour arguments are accepted
and ignored, as in the source). -/
def applyAdaptiveMorphing (morphCfg : MorphingConfig) (rng : ℕ → JQ)
    (beats : List EnhancedBeatData) (_sect : SongSection) (_sectionEnergy : JNum)
    (_harmonicContour : List JNum) (ridx : ℕ) : List EnhancedBeatData × ℕ :=
  applyRhythmicVariance morphCfg rng beats ridx

/-- `BeatmapGenerator.applyAntiRepetitionVariations`. -/
def applyAntiRepetitionVariations (beats : List EnhancedBeatData)
    (_sect : SongSection) : List EnhancedBeatData :=
  beats.map (fun beat => { beat with lane := jsMod (beat.lane + 1) 4 })

/-- Stable sort of a beat list ascending by `time` (JS
`beatmap.sort((a, b) => a.time - b.time)`; the comparator is consistent
whenever the times are not NaN, which the theorems establish). -/
def jsSortByTime (l : List EnhancedBeatData) : List EnhancedBeatData :=
  stableSort (fun a b => JNum.jlt a.time b.time) l

/-- The minimum-spacing filter of `postProcessWithHolds` (`prevBeat` is
taken from the already sorted input array, not from the kept output). -/
def spacingGo (prev : EnhancedBeatData) : List EnhancedBeatData → List EnhancedBeatData
  | [] => []
  | b :: rest =>
    if b.isHold || prev.isHold || JNum.jle 0.1 (b.time - prev.time) then
      b :: spacingGo b rest
    else spacingGo b rest

/-- Entry point of the minimum-spacing filter (index 0 is always kept). -/
def spacingFilter : List EnhancedBeatData → List EnhancedBeatData
  | [] => []
  | b :: rest => b :: spacingGo b rest

/-- Update the first `k` elements satisfying `p`, passing the match index
to the update function (models the in-place mutation of the first `k`
elements of a `filter` result, whose elements alias the main array). -/
def updateMatches {α : Type} (p : α → Bool) (k : ℕ) (f : ℕ → α → α) :
    ℕ → List α → List α
  | _, [] => []
  | i, x :: xs =>
    if p x then
      if i < k then f i x :: updateMatches p k f (i + 1) xs
      else x :: xs
    else x :: updateMatches p k f i xs

/-- The five hold patterns of `createComplexHoldPattern`. -/
def complexHoldPatterns : List (List ℤ × String) :=
  [([0, 3, 0, 3], "LeftRightHolds"), ([0, 1, 2, 3], "DiagonalSweep"),
   ([0, 2, 1, 3], "CrossPattern"), ([1, 2, 1, 2], "UpDownFlow"),
   ([0, 3, 1, 2, 0, 3], "MixedComplex")]

/-- `BeatmapGenerator.createComplexHoldPattern`.  The `beats` parameter of
the source aliases the elements of the main beat list selected by `p`; the
mutations are applied through `updateMatches`. -/
def createComplexHoldPattern (rng : ℕ → JQ) (bm : List EnhancedBeatData)
    (p : EnhancedBeatData → Bool) (gap : JNum) (recentLanes : List ℤ) (ridx : ℕ) :
    List EnhancedBeatData × List ℤ × ℕ :=
  let availablePatterns := complexHoldPatterns.filter (fun pat =>
    !(pat.1.all (fun lane => recentLanes.contains lane)))
  if availablePatterns.length = 0 then (bm, recentLanes, ridx)
  else
    let selectedPattern := availablePatterns.getD
      ((JNum.fin (rng ridx) * jnat availablePatterns.length).jfloor.toN) ([], "")
    let k := min (bm.countP p) selectedPattern.1.length
    let bm' := updateMatches p k (fun i b =>
      { b with
        lane := (selectedPattern.1.getD i 0), isHold := true,
        holdDuration := some (JNum.jmin (gap * 0.6) 1.5),
        templateName := some selectedPattern.2 }) 0 bm
    let recentLanes' := (selectedPattern.1.take k).foldl
      (fun r lane => if r.contains lane then r else r ++ [lane]) recentLanes
    (bm', recentLanes', ridx + 1)

/-- One qualifying melody-gap step of `addSustainedHolds` (the body of the
`if (gap > 1.0 && gap < 4.0)` branch). -/
def sustainedStep (rng : ℕ → JQ) (difficultySettings : DifficultySettings)
    (current next : BeatData) (bm : List EnhancedBeatData) (recentLanes : List ℤ)
    (ridx : ℕ) : List EnhancedBeatData × List ℤ × ℕ :=
  let gap := next.time - current.time
  let p : EnhancedBeatData → Bool := fun b =>
    JNum.jle current.time b.time && JNum.jle b.time next.time &&
      JNum.jlt ((b.time - current.time).jabs) (gap * 0.7)
  let shouldAddHold := JNum.jlt (JNum.fin (rng ridx)) difficultySettings.holdNoteFrequency
  let ridx1 := ridx + 1
  let cnt := bm.countP p
  if shouldAddHold && decide (cnt > 0) then
    if difficultySettings.complexPatterns && decide (cnt ≥ 3) then
      createComplexHoldPattern rng bm p gap recentLanes ridx1
    else
      match bm.find? p with
      | none => (bm, recentLanes, ridx1)
      | some holdBeat =>
        if holdBeat.isHold then (bm, recentLanes, ridx1)
        else
          let availableLanes := ([0, 1, 2, 3] : List ℤ).filter
            (fun lane => !(recentLanes.contains lane))
          let pick :=
            if availableLanes.length > 0 then
              (availableLanes.getD
                ((JNum.fin (rng ridx1) * jnat availableLanes.length).jfloor.toN) 0,
               ridx1 + 1)
            else (holdBeat.lane, ridx1)
          let newBeat :=
            { holdBeat with
              lane := (pick.1), isHold := true,
              holdDuration := some (JNum.jmin (gap * 0.8) 2.0) }
          let bm' := updateFirst p (fun _ => newBeat) bm
          let r1 := recentLanes ++ [newBeat.lane]
          let recentLanes' := if r1.length > 3 then r1.drop 1 else r1
          (bm', recentLanes', pick.2)
  else (bm, recentLanes, ridx1)

/-- The walk over consecutive melody-onset pairs in `addSustainedHolds`. -/
def sustainedWalk (rng : ℕ → JQ) (difficultySettings : DifficultySettings) :
    List BeatData → List EnhancedBeatData × List ℤ × ℕ →
      List EnhancedBeatData × List ℤ × ℕ
  | [], st => st
  | [_], st => st
  | current :: next :: rest, (bm, recentLanes, ridx) =>
    let gap := next.time - current.time
    let st' :=
      if JNum.jlt 1.0 gap && JNum.jlt gap 4.0 then
        sustainedStep rng difficultySettings current next bm recentLanes ridx
      else (bm, recentLanes, ridx)
    sustainedWalk rng difficultySettings (next :: rest) st'

/-- The five repeating patterns of `addRepeatingHoldPatterns`. -/
def repeatingPatterns : List (List ℤ × String) :=
  [([0, 0, 0, 1], "RepeatingLeft"), ([3, 3, 3, 2], "RepeatingRight"),
   ([1, 1, 2, 2], "RepeatingUpDown"), ([0, 3, 0, 3], "RepeatingLeftRight"),
   ([1, 2, 1, 2, 0, 3], "RepeatingMixed")]

/-- The group-collection phase of `addRepeatingHoldPatterns`: maximal runs
of consecutive beats whose successive time differences lie in (0.4, 0.8),
returned as (start index, length) with length ≥ 4. -/
def collectGroups (bm : List EnhancedBeatData) : List (ℕ × ℕ) :=
  let st := (pairsOf bm).enum.foldl
    (fun st pr =>
      let i := pr.1
      let timeDiff := pr.2.2.time - pr.2.1.time
      let isSimilarTiming := JNum.jlt 0.4 timeDiff && JNum.jlt timeDiff 0.8
      if isSimilarTiming then
        if st.2.2 = 0 then (st.1, i, 2) else (st.1, st.2.1, st.2.2 + 1)
      else
        if st.2.2 ≥ 4 then (st.1 ++ [(st.2.1, st.2.2)], 0, 0) else (st.1, 0, 0))
    (([] : List (ℕ × ℕ)), 0, 0)
  if st.2.2 ≥ 4 then st.1 ++ [(st.2.1, st.2.2)] else st.1

/-- Apply one repeating pattern to the group of beats at indices
`[start, start + len)` (the group elements alias the main array; their
times are never mutated, so the time reads below see the original times). -/
def applyGroupPattern (complexPatterns : Bool) (pattern : List ℤ × String)
    (start len : ℕ) (bm : List EnhancedBeatData) : List EnhancedBeatData :=
  let times := bm.map (fun b => b.time)
  bm.mapIdx (fun g b =>
    if start ≤ g ∧ g < start + len then
      let beatIndex := g - start
      let patternIndex := beatIndex % pattern.1.length
      let b1 := { b with lane := (pattern.1.getD patternIndex 0) }
      if patternIndex = 0 ∨ (complexPatterns ∧ patternIndex % 2 = 0) then
        let nextTime := times.getD (start + min (beatIndex + 1) (len - 1)) 0
        { b1 with
          isHold := true,
          holdDuration := some (JNum.jmin 1.2 ((nextTime - b.time) * 0.8)),
          templateName := some pattern.2 }
      else b1
    else b)

/-- `BeatmapGenerator.addRepeatingHoldPatterns` (its `recentLanes`
parameter is accepted and never read, as in the source). -/
def addRepeatingHoldPatterns (rng : ℕ → JQ) (difficultySettings : DifficultySettings)
    (bm : List EnhancedBeatData) (_recentLanes : List ℤ) (ridx : ℕ) :
    List EnhancedBeatData × ℕ :=
  let groups := collectGroups bm
  groups.enum.foldl
    (fun st g =>
      let shouldAddPattern := JNum.jlt (JNum.fin (rng st.2))
        (difficultySettings.holdNoteFrequency * 0.8)
      let ridx' := st.2 + 1
      if shouldAddPattern then
        let pattern := repeatingPatterns.getD (g.1 % repeatingPatterns.length) ([], "")
        (applyGroupPattern difficultySettings.complexPatterns pattern g.2.1 g.2.2 st.1, ridx')
      else (st.1, ridx'))
    (bm, ridx)

/-- `BeatmapGenerator.addSustainedHolds`. -/
def addSustainedHolds (rng : ℕ → JQ) (audioAnalysis : AudioAnalysisResult)
    (difficultySettings : DifficultySettings) (bm : List EnhancedBeatData) (ridx : ℕ) :
    List EnhancedBeatData × ℕ :=
  let melodyOnsets := audioAnalysis.beats.filter (fun b =>
    JNum.jle 300 b.frequency && JNum.jlt b.frequency 3000)
  let st := sustainedWalk rng difficultySettings melodyOnsets (bm, [], ridx)
  addRepeatingHoldPatterns rng difficultySettings st.1 st.2.1 st.2.2

/-- The consecutive-same-lane variety pass at the end of
`postProcessWithHolds` (sequential in-place mutation: a modified middle
beat is the `prev` of the next step). -/
def laneVarietyGo (prev : EnhancedBeatData) : List EnhancedBeatData → List EnhancedBeatData
  | [] => []
  | [x] => [x]
  | curr :: next :: rest =>
    if decide (prev.lane = curr.lane) && decide (curr.lane = next.lane) then
      let c := { curr with lane := jsMod (curr.lane + 1) 4 }
      c :: laneVarietyGo c (next :: rest)
    else curr :: laneVarietyGo curr (next :: rest)

/-- Entry point of the variety pass (the loop starts at index 1). -/
def laneVariety : List EnhancedBeatData → List EnhancedBeatData
  | [] => []
  | x :: xs => x :: laneVarietyGo x xs

/-- `BeatmapGenerator.postProcessWithHolds`. -/
def postProcessWithHolds (rng : ℕ → JQ) (audioAnalysis : AudioAnalysisResult)
    (difficultySettings : DifficultySettings) (beatmap : List EnhancedBeatData)
    (ridx : ℕ) : List EnhancedBeatData × ℕ :=
  let sorted := jsSortByTime beatmap
  let filtered := spacingFilter sorted
  let (filtered2, ridx') := addSustainedHolds rng audioAnalysis difficultySettings
    filtered ridx
  (laneVariety filtered2, ridx')

/-- `BeatmapGenerator.postProcessWithEnhancedHolds` (delegates). -/
def postProcessWithEnhancedHolds (rng : ℕ → JQ) (audioAnalysis : AudioAnalysisResult)
    (difficultySettings : DifficultySettings) (beatmap : List EnhancedBeatData)
    (_songStructure : SongStructure) (ridx : ℕ) : List EnhancedBeatData × ℕ :=
  postProcessWithHolds rng audioAnalysis difficultySettings beatmap ridx

/-- `BeatmapGenerator.enhanceSectionTransitions` (the identity). -/
def enhanceSectionTransitions (beatmap : List EnhancedBeatData)
    (_songStructure : SongStructure) : List EnhancedBeatData :=
  beatmap

/-- One iteration of the per-bar loop of `generateBeatmap`. -/
def generateBarStep (rng : ℕ → JQ) (audioAnalysis : AudioAnalysisResult)
    (morphCfg : MorphingConfig) (bpm speedMultiplier : JNum)
    (songStructure : SongStructure) (acc : List EnhancedBeatData) (st : GenSt)
    (barIndex : ℕ) (bar : Bar) : List EnhancedBeatData × GenSt :=
  let sect := getSectionForTime bar.startTime songStructure
  let sectionEnergy := getSectionEnergy audioAnalysis bar.startTime
  let harmonicContour := calculateHarmonicContour bar
  let st1 :=
    if decide (some sect ≠ st.lastSectionType) then
      { selectNewTemplateForSection sect bar.energy st with lastSectionType := some sect }
    else st
  let gen := generateTemplateBasedPattern bpm speedMultiplier bar sect barIndex st1
  let barBeats0 := gen.1
  let st2 := gen.2
  let novelty := noveltyFor sect
  let morphGate := JNum.jlt (JNum.fin (rng st2.ridx)) novelty
  let ridx1 := st2.ridx + 1
  let morphed :=
    if morphGate then
      applyAdaptiveMorphing morphCfg rng barBeats0 sect sectionEnergy harmonicContour ridx1
    else (barBeats0, ridx1)
  let barBeats1 := morphed.1
  let barBeats2 :=
    if st2.memory.wouldBeRepetitive barBeats1 then
      applyAntiRepetitionVariations barBeats1 sect
    else barBeats1
  let memory' := st2.memory.recordPattern barBeats2 sect sectionEnergy
  (acc ++ barBeats2, { st2 with memory := memory', ridx := morphed.2 })

/-- `BeatmapGenerator.generateBeatmap` (including the construction-time
state: `speedMultiplier` from the constructor, a fresh pattern memory via
`reset()`, and the morpher configuration).  The final analyzer run is
computed and discarded exactly as in the source, where it is only logged. -/
def generateBeatmap (log2 : JNum → JNum) (rng : ℕ → JQ)
    (audioAnalysis : AudioAnalysisResult) (difficultySettings : DifficultySettings) :
    List EnhancedBeatData :=
  let bpm := audioAnalysis.bpm
  let speedMultiplier := calculateSpeedMultiplier audioAnalysis difficultySettings
  let morphCfg := generatorMorphConfig difficultySettings
  let st0 : GenSt :=
    { currentTemplate := none, templateRotationIndex := 0, lastSectionType := none,
      memory := PatternMemory.reset generatorMemoryConfig, ridx := 0 }
  let onsets := detectMusicalOnsets audioAnalysis.beats
  let bars := segmentIntoBars onsets bpm audioAnalysis.duration
  let songStructure := analyzeSongStructure audioAnalysis.energy audioAnalysis.duration
  let looped := bars.enum.foldl
    (fun st p =>
      generateBarStep rng audioAnalysis morphCfg bpm speedMultiplier songStructure
        st.1 st.2 p.1 p.2)
    (([] : List EnhancedBeatData), st0)
  let post := postProcessWithEnhancedHolds rng audioAnalysis difficultySettings
    looped.1 songStructure looped.2.ridx
  let beatmap := enhanceSectionTransitions post.1 songStructure
  let _analytics := BeatmapAnalyzer.analyze log2 beatmap
  let _qualityScore := generateQualityScore _analytics
  jsSortByTime beatmap

/-! ## Basic lemmas about the number model -/

theorem jadd_def (a b : JNum) : a + b = JNum.add a b := rfl

theorem jsub_def (a b : JNum) : a - b = JNum.sub a b := rfl

theorem jmul_def (a b : JNum) : a * b = JNum.mul a b := rfl

theorem jdiv_def (a b : JNum) : a / b = JNum.div a b := rfl

theorem JNum.isF_fin (q : JQ) : (JNum.fin q).isF = true := rfl

/-- A boolean `<` whose left side is true is never NaN or `+∞`. -/
theorem jlt_left_cases {x y : JNum} (h : JNum.jlt x y = true) :
    x.isF = true ∨ x = JNum.ninf := by
  cases x <;> cases y <;> simp_all [JNum.jlt, JNum.isF]

/-- A boolean `<` whose right side is true is never NaN or `-∞`. -/
theorem jlt_right_cases {x y : JNum} (h : JNum.jlt x y = true) :
    y.isF = true ∨ y = JNum.pinf := by
  cases x <;> cases y <;> simp_all [JNum.jlt, JNum.isF]

theorem jabs_ne_ninf (x : JNum) : x.jabs ≠ JNum.ninf := by
  cases x <;> simp [JNum.jabs]

theorem jabs_isF {x : JNum} (h : x.jabs.isF = true) : x.isF = true := by
  cases x <;> simp_all [JNum.jabs, JNum.isF]

theorem add_isF {x y : JNum} (hx : x.isF = true) (hy : y.isF = true) :
    (x + y).isF = true := by
  cases x <;> cases y <;> simp_all [jadd_def, JNum.add, JNum.isF]

theorem neg_isF {x : JNum} (hx : x.isF = true) : (JNum.neg x).isF = true := by
  cases x <;> simp_all [JNum.neg, JNum.isF]

theorem sub_isF {x y : JNum} (hx : x.isF = true) (hy : y.isF = true) :
    (x - y).isF = true := by
  cases x <;> cases y <;> simp_all [jsub_def, JNum.sub, JNum.add, JNum.neg, JNum.isF]

theorem sub_isF_rev {x y : JNum} (h : (x - y).isF = true) :
    x.isF = true ∧ y.isF = true := by
  cases x <;> cases y <;> simp_all [jsub_def, JNum.sub, JNum.add, JNum.neg, JNum.isF]

theorem mul_isF {x y : JNum} (hx : x.isF = true) (hy : y.isF = true) :
    (x * y).isF = true := by
  cases x <;> cases y <;> simp_all [jmul_def, JNum.mul, JNum.isF]

theorem div_isF {x : JNum} {q : JQ} (hx : x.isF = true) (hq : q.num ≠ 0) :
    (x / JNum.fin q).isF = true := by
  cases x <;> simp_all [jdiv_def, JNum.div, JNum.isF]

theorem jmin_isF {x y : JNum} (hx : x.isF = true) (hy : y.isF = true) :
    (JNum.jmin x y).isF = true := by
  cases x <;> cases y <;> first
    | exact absurd hx (by decide)
    | exact absurd hy (by decide)
    | (simp only [JNum.jmin]; split <;> rfl)

theorem jmax_isF {x y : JNum} (hx : x.isF = true) (hy : y.isF = true) :
    (JNum.jmax x y).isF = true := by
  cases x <;> cases y <;> first
    | exact absurd hx (by decide)
    | exact absurd hy (by decide)
    | (simp only [JNum.jmax]; split <;> rfl)

theorem jabs_isF_of {x : JNum} (hx : x.isF = true) : x.jabs.isF = true := by
  cases x <;> simp_all [JNum.jabs, JNum.isF]

theorem jnat_isF (n : ℕ) : (jnat n).isF = true := rfl

theorem jnat_num (n : ℕ) : (JQ.ofInt (n : ℤ)).num = (n : ℤ) := rfl

/-- Division by a positive integer count is finite. -/
theorem div_jnat_isF {x : JNum} {n : ℕ} (hx : x.isF = true) (hn : 0 < n) :
    (x / jnat n).isF = true := by
  apply div_isF hx
  simp [jnat, JNum.int, JQ.ofInt]
  omega

theorem jsum_isF {l : List JNum} (h : ∀ x ∈ l, x.isF = true) : (jsum l).isF = true := by
  have main : ∀ (l2 : List JNum) (acc : JNum), (∀ x ∈ l2, x.isF = true) → acc.isF = true →
      (l2.foldl JNum.add acc).isF = true := by
    intro l2
    induction l2 with
    | nil => intro acc _ hacc; simpa [List.foldl] using hacc
    | cons x xs ih =>
      intro acc hall hacc
      simp only [List.foldl]
      refine ih _ (fun y hy => hall y (List.mem_cons_of_mem _ hy)) ?_
      have := add_isF hacc (hall x (List.mem_cons_self _ _))
      simpa [jadd_def] using this
  exact main l 0 h rfl

/-! ## List helper lemmas -/

theorem updateFirst_forall {α : Type} {P : α → Prop} {p : α → Bool} {f : α → α}
    {l : List α} (hl : ∀ x ∈ l, P x) (hf : ∀ x ∈ l, P (f x)) :
    ∀ x ∈ updateFirst p f l, P x := by
  induction l with
  | nil => intro x hx; simp [updateFirst] at hx
  | cons y ys ih =>
    intro x hx
    simp only [updateFirst] at hx
    by_cases hpy : p y
    · rw [if_pos hpy] at hx
      rcases List.mem_cons.mp hx with rfl | h
      · exact hf y (List.mem_cons_self _ _)
      · exact hl x (List.mem_cons_of_mem _ h)
    · rw [if_neg hpy] at hx
      rcases List.mem_cons.mp hx with rfl | h
      · exact hl x (List.mem_cons_self _ _)
      · exact ih (fun z hz => hl z (List.mem_cons_of_mem _ hz))
          (fun z hz => hf z (List.mem_cons_of_mem _ hz)) x h

theorem updateMatches_forall {α : Type} {P : α → Prop} {p : α → Bool} {k : ℕ}
    {f : ℕ → α → α} {l : List α} (hl : ∀ x ∈ l, P x)
    (hf : ∀ i, ∀ x ∈ l, P (f i x)) :
    ∀ i, ∀ x ∈ updateMatches p k f i l, P x := by
  induction l with
  | nil => intro i x hx; simp [updateMatches] at hx
  | cons y ys ih =>
    intro i x hx
    simp only [updateMatches] at hx
    by_cases hpy : p y
    · rw [if_pos hpy] at hx
      by_cases hik : i < k
      · rw [if_pos hik] at hx
        rcases List.mem_cons.mp hx with rfl | h
        · exact hf i y (List.mem_cons_self _ _)
        · exact ih (fun z hz => hl z (List.mem_cons_of_mem _ hz))
            (fun j z hz => hf j z (List.mem_cons_of_mem _ hz)) (i + 1) x h
      · rw [if_neg hik] at hx
        exact hl x hx
    · rw [if_neg hpy] at hx
      rcases List.mem_cons.mp hx with rfl | h
      · exact hl x (List.mem_cons_self _ _)
      · exact ih (fun z hz => hl z (List.mem_cons_of_mem _ hz))
          (fun j z hz => hf j z (List.mem_cons_of_mem _ hz)) i x h

theorem stableInsert_perm {α : Type} (before : α → α → Bool) (x : α) (l : List α) :
    List.Perm (stableInsert before x l) (x :: l) := by
  induction l with
  | nil => simp [stableInsert]
  | cons y ys ih =>
    simp only [stableInsert]
    by_cases h : before x y
    · rw [if_pos h]
    · rw [if_neg h]
      exact (List.Perm.cons y ih).trans (List.Perm.swap x y ys)

theorem stableSort_perm {α : Type} (before : α → α → Bool) (l : List α) :
    List.Perm (stableSort before l) l := by
  induction l with
  | nil => simp [stableSort]
  | cons y ys ih =>
    simp only [stableSort]
    exact (stableInsert_perm before y (stableSort before ys)).trans (List.Perm.cons y ih)

theorem foldl_append_forall {α β : Type} {P : α → Prop} (g : β → List α) (l : List β) :
    ∀ acc : List α, (∀ x ∈ acc, P x) → (∀ y ∈ l, ∀ x ∈ g y, P x) →
      ∀ x ∈ l.foldl (fun a y => a ++ g y) acc, P x := by
  induction l with
  | nil => intro acc hacc _ x hx; simpa [List.foldl] using hacc x hx
  | cons y ys ih =>
    intro acc hacc hg x hx
    simp only [List.foldl] at hx
    refine ih (acc ++ g y) ?_ (fun z hz w hw => hg z (List.mem_cons_of_mem _ hz) w hw) x hx
    intro w hw
    rcases List.mem_append.mp hw with h | h
    · exact hacc w h
    · exact hg y (List.mem_cons_self _ _) w h

/-! ## Order lemmas for finite values -/

theorem jlt_to_jle {x y : JNum} (hx : x.isF = true) (hy : y.isF = true)
    (h : JNum.jlt x y = true) : JNum.jle x y = true := by
  cases x with
  | fin a =>
    cases y with
    | fin b =>
      simp only [JNum.jlt, JQ.blt, decide_eq_true_eq] at h
      simp only [JNum.jle, JQ.ble, decide_eq_true_eq]
      omega
    | nan => exact absurd hy (by decide)
    | pinf => exact absurd hy (by decide)
    | ninf => exact absurd hy (by decide)
  | nan => exact absurd hx (by decide)
  | pinf => exact absurd hx (by decide)
  | ninf => exact absurd hx (by decide)

theorem not_jlt_to_jle {x y : JNum} (hx : x.isF = true) (hy : y.isF = true)
    (h : JNum.jlt x y = false) : JNum.jle y x = true := by
  cases x with
  | fin a =>
    cases y with
    | fin b =>
      simp only [JNum.jlt, JQ.blt, decide_eq_false_iff_not, not_lt] at h
      simp only [JNum.jle, JQ.ble, decide_eq_true_eq]
      omega
    | nan => exact absurd hy (by decide)
    | pinf => exact absurd hy (by decide)
    | ninf => exact absurd hy (by decide)
  | nan => exact absurd hx (by decide)
  | pinf => exact absurd hx (by decide)
  | ninf => exact absurd hx (by decide)

theorem jle_trans_fin {x y z : JNum} (hy : y.isF = true)
    (h1 : JNum.jle x y = true) (h2 : JNum.jle y z = true) : JNum.jle x z = true := by
  cases y with
  | fin b =>
    cases x with
    | fin a =>
      cases z with
      | fin c =>
        have t1 : JQ.ble a b = true := h1
        have t2 : JQ.ble b c = true := h2
        show JQ.ble a c = true
        exact (JQ.ble_iff a c).mpr
          (le_trans ((JQ.ble_iff a b).mp t1) ((JQ.ble_iff b c).mp t2))
      | nan => simp [JNum.jle] at h2
      | pinf => simp [JNum.jle]
      | ninf => simp [JNum.jle] at h2
    | nan => simp [JNum.jle] at h1
    | pinf => simp [JNum.jle] at h1
    | ninf => cases z <;> simp [JNum.jle] at h2 ⊢
  | nan => exact absurd hy (by decide)
  | pinf => exact absurd hy (by decide)
  | ninf => exact absurd hy (by decide)

/-- The ascending-time relation of the output contract. -/
def leTime (a b : EnhancedBeatData) : Prop := JNum.jle a.time b.time = true

/-- The comparator used by `jsSortByTime`. -/
def ltTimeB (a b : EnhancedBeatData) : Bool := JNum.jlt a.time b.time

theorem stableInsert_sorted {x : EnhancedBeatData} {l : List EnhancedBeatData}
    (hx : x.time.isF = true) (hl : ∀ y ∈ l, y.time.isF = true)
    (hs : List.Pairwise leTime l) :
    List.Pairwise leTime (stableInsert ltTimeB x l) := by
  induction l with
  | nil => simp [stableInsert]
  | cons y ys ih =>
    have hy : y.time.isF = true := hl y (List.mem_cons_self _ _)
    have hys : ∀ z ∈ ys, z.time.isF = true := fun z hz => hl z (List.mem_cons_of_mem _ hz)
    simp only [stableInsert]
    by_cases h : ltTimeB x y
    · rw [if_pos h]
      have hxy : leTime x y := jlt_to_jle hx hy h
      refine List.Pairwise.cons ?_ hs
      intro z hz
      rcases List.mem_cons.mp hz with rfl | hz'
      · exact hxy
      · have hyz : leTime y z := (List.pairwise_cons.mp hs).1 z hz'
        exact jle_trans_fin hy hxy hyz
    · rw [if_neg h]
      have hyx : leTime y x := not_jlt_to_jle hx hy (by simpa [ltTimeB] using h)
      refine List.Pairwise.cons ?_ (ih hys (List.pairwise_cons.mp hs).2)
      intro z hz
      have hz' := (stableInsert_perm ltTimeB x ys).mem_iff.mp hz
      rcases List.mem_cons.mp hz' with rfl | hz''
      · exact hyx
      · exact (List.pairwise_cons.mp hs).1 z hz''

theorem stableSort_sorted {l : List EnhancedBeatData}
    (hl : ∀ y ∈ l, y.time.isF = true) :
    List.Pairwise leTime (stableSort ltTimeB l) := by
  induction l with
  | nil => simp [stableSort]
  | cons y ys ih =>
    have hys : ∀ z ∈ ys, z.time.isF = true := fun z hz => hl z (List.mem_cons_of_mem _ hz)
    simp only [stableSort]
    refine stableInsert_sorted (hl y (List.mem_cons_self _ _)) ?_ (ih hys)
    intro z hz
    exact hys z ((stableSort_perm ltTimeB ys).mem_iff.mp hz)

/-! ## Finiteness predicates and invariants -/

/-- Finite numeric fields of a classified onset. -/
def FinO (o : Onset) : Prop :=
  o.time.isF = true ∧ o.intensity.isF = true ∧ o.frequency.isF = true

/-- Finite numeric fields of an input beat. -/
def FinBD (b : BeatData) : Prop :=
  b.time.isF = true ∧ b.intensity.isF = true ∧ b.frequency.isF = true

/-- Finite numeric fields of an output beat event: no NaN or infinity in
`time`, `intensity`, `frequency` or `holdDuration` (`lane` is an integer by
construction in this embedding). -/
def FinB (b : EnhancedBeatData) : Prop :=
  b.time.isF = true ∧ b.intensity.isF = true ∧ b.frequency.isF = true ∧
    ∀ d, b.holdDuration = some d → d.isF = true

/-- The sanity conditions on the analysis input under which the generator
is analysed: a positive finite BPM, a finite duration, and finite numeric
fields on every input beat. -/
def FinInput (aa : AudioAnalysisResult) : Prop :=
  aa.bpm.isF = true ∧ JNum.jlt 0 aa.bpm = true ∧ aa.duration.isF = true ∧
    ∀ b ∈ aa.beats, FinBD b

theorem detectMusicalOnsets_fin {beats : List BeatData} (h : ∀ b ∈ beats, FinBD b) :
    ∀ o ∈ detectMusicalOnsets beats, FinO o := by
  intro o ho
  simp only [detectMusicalOnsets, List.mem_append, List.mem_map, List.mem_filter] at ho
  rcases ho with ((⟨b, ⟨hb, _⟩, rfl⟩ | ⟨b, ⟨hb, _⟩, rfl⟩) | ⟨b, ⟨hb, _⟩, rfl⟩) |
    ⟨b, ⟨hb, _⟩, rfl⟩ <;>
    exact (h b hb)

theorem detectMusicalOnsets_mem {beats : List BeatData} {o : Onset}
    (ho : o ∈ detectMusicalOnsets beats) :
    ∃ b ∈ beats, o.time = b.time ∧ o.intensity = b.intensity ∧ o.frequency = b.frequency := by
  simp only [detectMusicalOnsets, List.mem_append, List.mem_map, List.mem_filter] at ho
  rcases ho with ((⟨b, ⟨hb, _⟩, rfl⟩ | ⟨b, ⟨hb, _⟩, rfl⟩) | ⟨b, ⟨hb, _⟩, rfl⟩) |
    ⟨b, ⟨hb, _⟩, rfl⟩ <;>
    exact ⟨b, hb, rfl, rfl, rfl⟩

/-- Everything `segmentLoop` produces from a finite start time with a
finite bar length and duration has finite bar bounds, onsets drawn from
the input onsets, and (for finite onsets) finite energy. -/
theorem segmentLoop_fin {onsets : List Onset} {bd dur : JNum}
    (hbd : bd.isF = true) (hons : ∀ o ∈ onsets, FinO o) :
    ∀ (fuel : ℕ) (t : JNum), t.isF = true →
      ∀ bar ∈ segmentLoop onsets bd dur fuel t,
        bar.startTime.isF = true ∧ bar.endTime.isF = true ∧
          (∀ o ∈ bar.onsets, o ∈ onsets) ∧ bar.energy.isF = true := by
  intro fuel
  induction fuel with
  | zero => intro t _ bar hbar; simp [segmentLoop] at hbar
  | succ fuel ih =>
    intro t ht bar hbar
    simp only [segmentLoop] at hbar
    by_cases hc : JNum.jlt t dur
    · rw [if_pos hc] at hbar
      rcases List.mem_cons.mp hbar with rfl | hbar'
      · have hend : (JNum.jmin (t + bd) dur).isF = true := by
          have htb := add_isF ht hbd
          cases dur with
          | fin d => exact jmin_isF htb rfl
          | nan => cases t <;> simp [JNum.jlt] at hc
          | ninf => cases t <;> simp [JNum.jlt] at hc
          | pinf =>
            revert htb
            cases t + bd <;> intro htb <;>
              simp_all [JNum.jmin, JNum.jlt, JNum.isF]
        constructor
        · exact ht
        constructor
        · exact hend
        constructor
        · intro o ho
          exact (List.mem_filter.mp ho).1
        · apply div_jnat_isF
          · apply jsum_isF
            intro x hx
            simp only [List.mem_map] at hx
            obtain ⟨o, ho, rfl⟩ := hx
            exact (hons o (List.mem_filter.mp ho).1).2.1
          · omega
      · exact ih (t + bd) (add_isF ht hbd) bar hbar'
    · rw [if_neg hc] at hbar
      simp at hbar

theorem findNearestOnset_spec {onsets : List Onset} {t tol : JNum} {o : Onset}
    (h : findNearestOnset onsets t tol = some o) :
    o ∈ onsets ∧ ((o.time - t).jabs).isF = true := by
  unfold findNearestOnset at h
  have main : ∀ (l : List Onset) (acc : Option Onset × JNum),
      (∀ o', acc.1 = some o' → o' ∈ onsets ∧ ((o'.time - t).jabs).isF = true) →
      (∀ o' ∈ l, o' ∈ onsets) →
      ∀ o', (l.foldl
        (fun st o'' =>
          let distance := (o''.time - t).jabs
          if JNum.jlt distance st.2 then (some o'', distance) else st) acc).1 = some o' →
        o' ∈ onsets ∧ ((o'.time - t).jabs).isF = true := by
    intro l
    induction l with
    | nil => intro acc hacc _ o' h'; exact hacc o' h'
    | cons x xs ih =>
      intro acc hacc hsub o' h'
      simp only [List.foldl] at h'
      refine ih _ ?_ (fun z hz => hsub z (List.mem_cons_of_mem _ hz)) o' h'
      intro o'' ho''
      by_cases hcond : JNum.jlt ((x.time - t).jabs) acc.2
      · rw [if_pos hcond] at ho''
        simp only at ho''
        cases ho''
        refine ⟨hsub x (List.mem_cons_self _ _), ?_⟩
        rcases jlt_left_cases hcond with hf | hninf
        · exact hf
        · exact absurd hninf (jabs_ne_ninf _)
      · rw [if_neg hcond] at ho''
        exact hacc o'' ho''
  exact main onsets (none, tol) (by intro o' h'; simp at h') (fun z hz => hz) o h

theorem findNearestOnset_time_fin {onsets : List Onset} {t tol : JNum} {o : Onset}
    (h : findNearestOnset onsets t tol = some o) : o.time.isF = true := by
  have := (findNearestOnset_spec h).2
  exact (sub_isF_rev (jabs_isF this)).1

/-- A left fold whose step keeps either the accumulator or the new element
produces the initial accumulator or a list element. -/
theorem foldl_pick {α : Type} (f : α → α → α) (hf : ∀ c o, f c o = c ∨ f c o = o) :
    ∀ (l : List α) (acc : α), l.foldl f acc = acc ∨ l.foldl f acc ∈ l := by
  intro l
  induction l with
  | nil => intro acc; left; rfl
  | cons x xs ih =>
    intro acc
    simp only [List.foldl]
    rcases ih (f acc x) with h | h
    · rw [h]
      rcases hf acc x with h' | h'
      · left; exact h'
      · right; rw [h']; exact List.mem_cons_self _ _
    · right; exact List.mem_cons_of_mem _ h

theorem getFrequencyForOnset_fin {onsets : List Onset} {t : JNum}
    (hons : ∀ o ∈ onsets, FinO o) : (getFrequencyForOnset onsets t).isF = true := by
  unfold getFrequencyForOnset
  have hpick := foldl_pick
    (fun closest o =>
      if JNum.jlt ((o.time - t).jabs) ((closest.time - t).jabs) then o else closest)
    (by
      intro c o
      by_cases h : JNum.jlt ((o.time - t).jabs) ((c.time - t).jabs)
      · right; simp [h]
      · left; simp [h])
    onsets (onsets.headD (fallbackOnset t))
  rcases hpick with h | h
  · rw [h]
    cases honsets : onsets with
    | nil => simp [honsets, fallbackOnset]; rfl
    | cons x xs =>
      have hx : x ∈ onsets := by rw [honsets]; exact List.mem_cons_self _ _
      simp only [honsets, List.headD]
      exact (hons x hx).2.2
  · exact (hons _ h).2.2

theorem getIntensityForOnset_fin {onsets : List Onset} {t : JNum}
    (hons : ∀ o ∈ onsets, FinO o) : (getIntensityForOnset onsets t).isF = true := by
  unfold getIntensityForOnset
  have hpick := foldl_pick
    (fun closest o =>
      if JNum.jlt ((o.time - t).jabs) ((closest.time - t).jabs) then o else closest)
    (by
      intro c o
      by_cases h : JNum.jlt ((o.time - t).jabs) ((c.time - t).jabs)
      · right; simp [h]
      · left; simp [h])
    onsets (onsets.headD (fallbackOnset t))
  rcases hpick with h | h
  · rw [h]
    cases honsets : onsets with
    | nil => simp [honsets, fallbackOnset]; rfl
    | cons x xs =>
      have hx : x ∈ onsets := by rw [honsets]; exact List.mem_cons_self _ _
      simp only [honsets, List.headD]
      exact (hons x hx).2.1
  · exact (hons _ h).2.1

/-- Well-formedness of a template as present throughout the catalog:
nonempty step list and a nonzero finite repeat count. -/
def tOK (t : PatternTemplate) : Bool :=
  decide (0 < t.steps.length) &&
  (match rcOf t with
   | JNum.fin q => decide (q.num ≠ 0)
   | _ => false)

theorem catalogOK : ∀ t ∈ PATTERN_TEMPLATES, tOK t = true := by decide

theorem defaultTemplate_mem : defaultTemplate ∈ PATTERN_TEMPLATES := by decide

theorem tOK_steps {t : PatternTemplate} (h : tOK t = true) : 0 < t.steps.length := by
  unfold tOK at h
  exact of_decide_eq_true (Bool.and_elim_left h)

theorem tOK_rc {t : PatternTemplate} (h : tOK t = true) :
    ∃ q : JQ, rcOf t = JNum.fin q ∧ q.num ≠ 0 := by
  unfold tOK at h
  have h2 := Bool.and_elim_right h
  revert h2
  cases hrc : rcOf t <;> intro h2 <;> simp_all

theorem getD_mem_or {α : Type} (l : List α) (n : ℕ) (d : α) :
    l.getD n d ∈ l ∨ l.getD n d = d := by
  rw [List.getD_eq_getD_get?]
  cases h : l.get? n with
  | none => right; rfl
  | some x => left; simpa using List.get?_mem h

theorem selectCandidates_subset (sect : SongSection) (energy : JNum) :
    ∀ x ∈ selectCandidates sect energy, x ∈ PATTERN_TEMPLATES := by
  intro x hx
  simp only [selectCandidates] at hx
  repeat' split at hx
  all_goals
    first
    | exact (List.mem_filter.mp hx).1
    | exact (List.mem_filter.mp (List.mem_filter.mp hx).1).1

theorem select_some (sect : SongSection) (energy : JNum) (st : GenSt) :
    ∃ t, (selectNewTemplateForSection sect energy st).currentTemplate = some t ∧
      t ∈ PATTERN_TEMPLATES := by
  refine ⟨_, rfl, ?_⟩
  rcases getD_mem_or (selectCandidates sect energy)
    (st.templateRotationIndex % (selectCandidates sect energy).length) defaultTemplate with
    h | h
  · exact selectCandidates_subset sect energy _ h
  · rw [h]; exact defaultTemplate_mem

/-- The generator-state invariant: the current template, when set, comes
from the catalog. -/
def GenInv (st : GenSt) : Prop :=
  ∀ t, st.currentTemplate = some t → t ∈ PATTERN_TEMPLATES

theorem select_gen_inv (sect : SongSection) (energy : JNum) (st : GenSt) :
    GenInv (selectNewTemplateForSection sect energy st) := by
  intro t ht
  obtain ⟨t', ht', hmem⟩ := select_some sect energy st
  rw [ht'] at ht
  cases ht
  exact hmem

theorem foldl_isF_of_step {β : Type} (g : JNum → β → JNum) (l : List β)
    (hg : ∀ a, ∀ x ∈ l, a.isF = true → (g a x).isF = true) :
    ∀ acc : JNum, acc.isF = true → (l.foldl g acc).isF = true := by
  induction l with
  | nil => intro acc hacc; simpa [List.foldl] using hacc
  | cons x xs ih =>
    intro acc hacc
    simp only [List.foldl]
    exact ih (fun a z hz ha => hg a z (List.mem_cons_of_mem _ hz) ha) _
      (hg acc x (List.mem_cons_self _ _) hacc)

theorem stepT0_isF {bar : Bar} {template : PatternTemplate} (rep stepIndex : ℕ)
    (hst : bar.startTime.isF = true) (hend : bar.endTime.isF = true)
    (htm : tOK template = true) :
    (stepT0 bar template rep stepIndex).isF = true := by
  obtain ⟨q, hq, hqnum⟩ := tOK_rc htm
  have hsteps := tOK_steps htm
  have hbd : (bar.endTime - bar.startTime).isF = true := sub_isF hend hst
  have hdivrc : ∀ x : JNum, x.isF = true → (x / rcOf template).isF = true := by
    intro x hx; rw [hq]; exact div_isF hx hqnum
  unfold stepT0
  exact add_isF hst (mul_isF
    (add_isF (hdivrc _ (jnat_isF rep)) (hdivrc _ (div_jnat_isF (jnat_isF stepIndex) hsteps)))
    hbd)

theorem stepTime_isF {bar : Bar} {template : PatternTemplate} (rep stepIndex : ℕ)
    (hst : bar.startTime.isF = true) (hend : bar.endTime.isF = true)
    (htm : tOK template = true) :
    (stepTime bar template rep stepIndex).isF = true := by
  unfold stepTime
  cases hno : findNearestOnset bar.onsets (stepT0 bar template rep stepIndex) 0.15 with
  | some o => exact findNearestOnset_time_fin hno
  | none => exact stepT0_isF rep stepIndex hst hend htm

theorem stepNextTime_isF {bar : Bar} {template : PatternTemplate} (rep stepIndex : ℕ)
    (hst : bar.startTime.isF = true) (hend : bar.endTime.isF = true)
    (htm : tOK template = true) :
    (stepNextTime bar template rep stepIndex).isF = true := by
  obtain ⟨q, hq, hqnum⟩ := tOK_rc htm
  have hsteps := tOK_steps htm
  have hbd : (bar.endTime - bar.startTime).isF = true := sub_isF hend hst
  have hdivrc : ∀ x : JNum, x.isF = true → (x / rcOf template).isF = true := by
    intro x hx; rw [hq]; exact div_isF hx hqnum
  unfold stepNextTime
  split
  · exact add_isF hst (mul_isF
      (add_isF (hdivrc _ (jnat_isF rep))
        (hdivrc _ (div_jnat_isF (jnat_isF (stepIndex + 1)) hsteps)))
      hbd)
  · exact hend

theorem stepHoldDuration_isF {bar : Bar} {template : PatternTemplate} (rep stepIndex : ℕ)
    (hst : bar.startTime.isF = true) (hend : bar.endTime.isF = true)
    (hons : ∀ o ∈ bar.onsets, FinO o) (hen : bar.energy.isF = true)
    (htm : tOK template = true) :
    ∀ d, stepHoldDuration bar template rep stepIndex = some d → d.isF = true := by
  intro d hd
  have htime := stepTime_isF rep stepIndex hst hend htm
  have hbd : (bar.endTime - bar.startTime).isF = true := sub_isF hend hst
  have hrem : ((bar.endTime - bar.startTime) -
      (stepTime bar template rep stepIndex - bar.startTime)).isF = true :=
    sub_isF hbd (sub_isF htime hst)
  unfold stepHoldDuration at hd
  dsimp only at hd
  split at hd
  · split at hd
    · cases hd
      refine jmin_isF (jmin_isF ?_ hrem) rfl
      refine foldl_isF_of_step _ _ ?_ _ rfl
      intro a x hx ha
      have hxmem : x ∈ bar.onsets := (List.mem_filter.mp hx).1
      exact jmax_isF ha (mul_isF (hons x hxmem).2.1 rfl)
    · cases hd
      refine jmin_isF (mul_isF ?_ ?_) hrem
      · exact mul_isF (sub_isF (stepNextTime_isF rep stepIndex hst hend htm) htime) rfl
      · exact add_isF rfl (mul_isF hen rfl)
  · cases hd

theorem stepIntensity_isF {bar : Bar} {template : PatternTemplate} (rep stepIndex : ℕ)
    (hons : ∀ o ∈ bar.onsets, FinO o) :
    (stepIntensity bar template rep stepIndex).isF = true := by
  unfold stepIntensity
  cases hno : findNearestOnset bar.onsets (stepT0 bar template rep stepIndex) 0.15 with
  | some o => exact (hons o (findNearestOnset_spec hno).1).2.1
  | none => exact getIntensityForOnset_fin hons

theorem templateStepBeats_fin {bar : Bar} {sect : SongSection} {barIndex : ℕ}
    {template : PatternTemplate} (rep : ℕ) (stepPair : ℕ × ℤ)
    (hst : bar.startTime.isF = true) (hend : bar.endTime.isF = true)
    (hons : ∀ o ∈ bar.onsets, FinO o) (hen : bar.energy.isF = true)
    (htm : tOK template = true) :
    ∀ b ∈ templateStepBeats bar sect barIndex template rep stepPair, FinB b := by
  intro b hb
  unfold templateStepBeats at hb
  dsimp only at hb
  split at hb
  · rcases List.mem_singleton.mp hb with rfl
    refine ⟨stepTime_isF _ _ hst hend htm, stepIntensity_isF _ _ hons,
      getFrequencyForOnset_fin hons, ?_⟩
    exact stepHoldDuration_isF _ _ hst hend hons hen htm
  · simp at hb

theorem mem_of_mem_enum {α : Type} {l : List α} {p : ℕ × α} (h : p ∈ l.enum) : p.2 ∈ l := by
  rw [List.mem_enum_iff_getElem?] at h
  exact List.getElem?_mem h

/-- Finiteness of a bar's numeric data. -/
def FinBar (bar : Bar) : Prop :=
  bar.startTime.isF = true ∧ bar.endTime.isF = true ∧
    (∀ o ∈ bar.onsets, FinO o) ∧ bar.energy.isF = true

theorem mapRand_mem {α β : Type} {f : α → JQ → β} {rng : ℕ → JQ} :
    ∀ {l : List α} {ridx : ℕ} {y : β}, y ∈ (mapRand f rng l ridx).1 →
      ∃ x ∈ l, ∃ i, y = f x (rng i) := by
  intro l
  induction l with
  | nil => intro ridx y hy; simp [mapRand] at hy
  | cons x xs ih =>
    intro ridx y hy
    simp only [mapRand] at hy
    rcases List.mem_cons.mp hy with rfl | hy'
    · exact ⟨x, List.mem_cons_self _ _, ridx, rfl⟩
    · obtain ⟨z, hz, i, hi⟩ := ih hy'
      exact ⟨z, List.mem_cons_of_mem _ hz, i, hi⟩

theorem FinB_set_lane {b : EnhancedBeatData} (h : FinB b) (lane : ℤ) :
    FinB { b with lane := lane } := h

theorem FinB_set_time {b : EnhancedBeatData} (h : FinB b) {t : JNum} (ht : t.isF = true) :
    FinB { b with time := t } := ⟨ht, h.2.1, h.2.2.1, h.2.2.2⟩

theorem applyRhythmicVariance_fin {cfg : MorphingConfig} {rng : ℕ → JQ}
    {beats : List EnhancedBeatData} {ridx : ℕ}
    (hrv : cfg.rhythmicVariance.isF = true) (h : ∀ b ∈ beats, FinB b) :
    ∀ b ∈ (applyRhythmicVariance cfg rng beats ridx).1, FinB b := by
  intro b hb
  unfold applyRhythmicVariance at hb
  split at hb
  · exact h b hb
  · obtain ⟨x, hx, i, rfl⟩ := mapRand_mem hb
    refine FinB_set_time (h x hx) ?_
    refine add_isF (h x hx).1 (mul_isF (sub_isF rfl rfl) ?_)
    exact div_isF hrv (by decide)

theorem applyAntiRepetitionVariations_fin {beats : List EnhancedBeatData}
    {sect : SongSection} (h : ∀ b ∈ beats, FinB b) :
    ∀ b ∈ applyAntiRepetitionVariations beats sect, FinB b := by
  intro b hb
  unfold applyAntiRepetitionVariations at hb
  obtain ⟨x, hx, rfl⟩ := List.mem_map.mp hb
  exact FinB_set_lane (h x hx) _

theorem gTBP_spec (bpm sm : JNum) (bar : Bar) (sect : SongSection) (barIndex : ℕ)
    (st : GenSt) (hbar : FinBar bar) (hinv : GenInv st) :
    (∀ b ∈ (generateTemplateBasedPattern bpm sm bar sect barIndex st).1, FinB b) ∧
      GenInv (generateTemplateBasedPattern bpm sm bar sect barIndex st).2 := by
  obtain ⟨hst, hend, hons, hen⟩ := hbar
  unfold generateTemplateBasedPattern
  dsimp only
  have hstep : ∀ (st1 : GenSt), GenInv st1 →
      (∀ b ∈ (List.range ((rcOf (st1.currentTemplate.getD defaultTemplate)).toN)).foldl
        (fun acc rep =>
          acc ++ ((st1.currentTemplate.getD defaultTemplate).steps.enum.foldl
            (fun acc2 stepPair =>
              acc2 ++ templateStepBeats bar sect barIndex
                (st1.currentTemplate.getD defaultTemplate) rep stepPair) [])) [],
        FinB b) := by
    intro st1 hinv1 b hb
    have htmem : st1.currentTemplate.getD defaultTemplate ∈ PATTERN_TEMPLATES := by
      cases hc : st1.currentTemplate with
      | some t => simpa [hc] using hinv1 t hc
      | none => simpa [hc] using defaultTemplate_mem
    have htok := catalogOK _ htmem
    refine foldl_append_forall _ _ _ (by simp) ?_ b hb
    intro rep _ x hx
    refine foldl_append_forall _ _ _ (by simp) ?_ x hx
    intro sp _ y hy
    exact templateStepBeats_fin rep sp hst hend hons hen htok y hy
  cases hct : st.currentTemplate with
  | none =>
    refine ⟨?_, ?_⟩
    · exact hstep _ (select_gen_inv sect bar.energy st)
    · exact select_gen_inv sect bar.energy st
  | some t =>
    refine ⟨?_, ?_⟩
    · exact hstep _ hinv
    · exact hinv

theorem applyAdaptiveMorphing_fin {cfg : MorphingConfig} {rng : ℕ → JQ}
    {beats : List EnhancedBeatData} {sect : SongSection} {se : JNum} {hc : List JNum}
    {ridx : ℕ} (hrv : cfg.rhythmicVariance.isF = true) (h : ∀ b ∈ beats, FinB b) :
    ∀ b ∈ (applyAdaptiveMorphing cfg rng beats sect se hc ridx).1, FinB b := by
  unfold applyAdaptiveMorphing
  exact applyRhythmicVariance_fin hrv h

theorem generateBarStep_spec (rng : ℕ → JQ) (aa : AudioAnalysisResult)
    (morphCfg : MorphingConfig) (bpm sm : JNum) (songStructure : SongStructure)
    (acc : List EnhancedBeatData) (st : GenSt) (barIndex : ℕ) (bar : Bar)
    (hrv : morphCfg.rhythmicVariance.isF = true)
    (hacc : ∀ b ∈ acc, FinB b) (hinv : GenInv st) (hbar : FinBar bar) :
    (∀ b ∈ (generateBarStep rng aa morphCfg bpm sm songStructure acc st barIndex bar).1,
      FinB b) ∧
    GenInv (generateBarStep rng aa morphCfg bpm sm songStructure acc st barIndex bar).2 := by
  unfold generateBarStep
  dsimp only
  set sect := getSectionForTime bar.startTime songStructure with hsect
  set st1 :=
    if decide (some sect ≠ st.lastSectionType) = true then
      { selectNewTemplateForSection sect bar.energy st with lastSectionType := some sect }
    else st with hst1
  have hinv1 : GenInv st1 := by
    rw [hst1]
    split
    · intro t ht
      exact select_gen_inv sect bar.energy st t ht
    · exact hinv
  have hg := gTBP_spec bpm sm bar sect barIndex st1 hbar hinv1
  constructor
  · intro b hb
    rcases List.mem_append.mp hb with h | h
    · exact hacc b h
    · -- b comes from the possibly-morphed, possibly-rotated bar beats
      have hbase := hg.1
      split at h
      · -- morph gate taken
        split at h
        · refine applyAntiRepetitionVariations_fin ?_ b h
          intro z hz
          exact applyAdaptiveMorphing_fin hrv hbase z hz
        · exact applyAdaptiveMorphing_fin hrv hbase b h
      · -- morph gate not taken
        dsimp only at h
        split at h
        · refine applyAntiRepetitionVariations_fin ?_ b h
          intro z hz
          exact hbase z hz
        · exact hbase b h
  · exact hg.2

theorem barsLoop_spec (rng : ℕ → JQ) (aa : AudioAnalysisResult)
    (morphCfg : MorphingConfig) (bpm sm : JNum) (songStructure : SongStructure)
    (hrv : morphCfg.rhythmicVariance.isF = true) :
    ∀ (bars : List (ℕ × Bar)) (acc : List EnhancedBeatData) (st : GenSt),
      (∀ p ∈ bars, FinBar p.2) → (∀ b ∈ acc, FinB b) → GenInv st →
      ∀ b ∈ (bars.foldl
        (fun s p =>
          generateBarStep rng aa morphCfg bpm sm songStructure s.1 s.2 p.1 p.2)
        (acc, st)).1, FinB b := by
  intro bars
  induction bars with
  | nil => intro acc st _ hacc _ b hb; exact hacc b hb
  | cons p ps ih =>
    intro acc st hbars hacc hinv b hb
    simp only [List.foldl] at hb
    have hp := hbars p (List.mem_cons_self _ _)
    have hspec := generateBarStep_spec rng aa morphCfg bpm sm songStructure acc st p.1 p.2
      hrv hacc hinv hp
    have hb' : b ∈ (ps.foldl
        (fun s q =>
          generateBarStep rng aa morphCfg bpm sm songStructure s.1 s.2 q.1 q.2)
        ((generateBarStep rng aa morphCfg bpm sm songStructure acc st p.1 p.2).1,
         (generateBarStep rng aa morphCfg bpm sm songStructure acc st p.1 p.2).2)).1 := by
      simpa using hb
    exact ih _ _ (fun q hq => hbars q (List.mem_cons_of_mem _ hq)) hspec.1 hspec.2 b hb'

theorem spacingGo_subset {prev : EnhancedBeatData} {l : List EnhancedBeatData} :
    ∀ b ∈ spacingGo prev l, b ∈ l := by
  induction l generalizing prev with
  | nil => intro b hb; simp [spacingGo] at hb
  | cons x xs ih =>
    intro b hb
    simp only [spacingGo] at hb
    split at hb
    · rcases List.mem_cons.mp hb with rfl | hb'
      · exact List.mem_cons_self _ _
      · exact List.mem_cons_of_mem _ (ih b hb')
    · exact List.mem_cons_of_mem _ (ih b hb)

theorem spacingFilter_subset {l : List EnhancedBeatData} :
    ∀ b ∈ spacingFilter l, b ∈ l := by
  cases l with
  | nil => intro b hb; simp [spacingFilter] at hb
  | cons x xs =>
    intro b hb
    simp only [spacingFilter] at hb
    rcases List.mem_cons.mp hb with rfl | hb'
    · exact List.mem_cons_self _ _
    · exact List.mem_cons_of_mem _ (spacingGo_subset b hb')

theorem createComplexHoldPattern_fin {rng : ℕ → JQ} {bm : List EnhancedBeatData}
    {p : EnhancedBeatData → Bool} {gap : JNum} {recentLanes : List ℤ} {ridx : ℕ}
    (hgap : gap.isF = true) (h : ∀ b ∈ bm, FinB b) :
    ∀ b ∈ (createComplexHoldPattern rng bm p gap recentLanes ridx).1, FinB b := by
  intro b hb
  unfold createComplexHoldPattern at hb
  dsimp only at hb
  split at hb
  · exact h b hb
  · refine updateMatches_forall h ?_ 0 b hb
    intro i x hx
    exact ⟨(h x hx).1, (h x hx).2.1, (h x hx).2.2.1, by
      intro d hd
      simp only at hd
      cases hd
      exact jmin_isF (mul_isF hgap rfl) rfl⟩

theorem sustainedStep_fin {rng : ℕ → JQ} {ds : DifficultySettings}
    {current next : BeatData} {bm : List EnhancedBeatData} {recentLanes : List ℤ}
    {ridx : ℕ} (hcur : current.time.isF = true) (hnext : next.time.isF = true)
    (h : ∀ b ∈ bm, FinB b) :
    ∀ b ∈ (sustainedStep rng ds current next bm recentLanes ridx).1, FinB b := by
  intro b hb
  have hgap : (next.time - current.time).isF = true := sub_isF hnext hcur
  unfold sustainedStep at hb
  dsimp only at hb
  split at hb
  · split at hb
    · exact createComplexHoldPattern_fin hgap h b hb
    · split at hb
      · exact h b hb
      · split at hb
        · exact h b hb
        · refine updateFirst_forall h ?_ b hb
          intro x hx
          rename_i holdBeat hfind _
          have hmem : holdBeat ∈ bm := List.mem_of_find?_eq_some hfind
          exact ⟨(h _ hmem).1, (h _ hmem).2.1, (h _ hmem).2.2.1, by
            intro d hd
            simp only at hd
            cases hd
            exact jmin_isF (mul_isF hgap rfl) rfl⟩
  · exact h b hb

theorem sustainedWalk_fin (rng : ℕ → JQ) (ds : DifficultySettings) :
    ∀ (onsets : List BeatData) (st : List EnhancedBeatData × List ℤ × ℕ),
      (∀ b ∈ st.1, FinB b) →
      ∀ b ∈ (sustainedWalk rng ds onsets st).1, FinB b := by
  intro onsets
  induction onsets with
  | nil => intro st h b hb; exact h b hb
  | cons current rest ih =>
    intro st h b hb
    cases rest with
    | nil => exact h b hb
    | cons next rest' =>
      obtain ⟨bm, rl, ridx⟩ := st
      simp only [sustainedWalk] at hb
      refine ih _ ?_ b hb
      dsimp only
      split
      · rename_i hc
        rw [Bool.and_eq_true] at hc
        have hgap : (next.time - current.time).isF = true := by
          rcases jlt_right_cases hc.1 with hf | hp
          · exact hf
          · rw [hp] at hc
            exact absurd hc.2 (by decide)
        exact sustainedStep_fin (sub_isF_rev hgap).2 (sub_isF_rev hgap).1 h
      · exact h

theorem mapIdx_forall {α : Type} {P : α → Prop} :
    ∀ (l : List α) (f : ℕ → α → α),
      (∀ i x, x ∈ l → P (f i x)) → ∀ x ∈ l.mapIdx f, P x := by
  intro l
  induction l with
  | nil => intro f _ x hx; simp at hx
  | cons y ys ih =>
    intro f h x hx
    rw [List.mapIdx_cons] at hx
    rcases List.mem_cons.mp hx with rfl | hx'
    · exact h 0 y (List.mem_cons_self _ _)
    · exact ih (fun i => f (i + 1)) (fun i z hz => h (i + 1) z (List.mem_cons_of_mem _ hz))
        x hx'

theorem applyGroupPattern_fin {cp : Bool} {pat : List ℤ × String} {start len : ℕ}
    {bm : List EnhancedBeatData} (h : ∀ b ∈ bm, FinB b) :
    ∀ b ∈ applyGroupPattern cp pat start len bm, FinB b := by
  unfold applyGroupPattern
  refine mapIdx_forall bm _ ?_
  intro g b hb
  dsimp only
  split
  · split
    · refine ⟨(h b hb).1, (h b hb).2.1, (h b hb).2.2.1, ?_⟩
      intro d hd
      simp only at hd
      cases hd
      refine jmin_isF rfl (mul_isF (sub_isF ?_ (h b hb).1) rfl)
      rcases getD_mem_or (bm.map (fun b => b.time))
          (start + min (g - start + 1) (len - 1)) 0 with hmem | hdef
      · obtain ⟨x, hx, hxe⟩ := List.mem_map.mp hmem
        rw [← hxe]
        exact (h x hx).1
      · rw [hdef]; rfl
    · exact h b hb
  · exact h b hb

theorem foldl_inv {α σ : Type} {P : σ → Prop} {f : σ → α → σ}
    (hf : ∀ s a, P s → P (f s a)) :
    ∀ (l : List α) (s : σ), P s → P (l.foldl f s) := by
  intro l
  induction l with
  | nil => intro s hs; simpa using hs
  | cons x xs ih => intro s hs; exact ih _ (hf s x hs)

theorem addRepeatingHoldPatterns_fin {rng : ℕ → JQ} {ds : DifficultySettings}
    {bm : List EnhancedBeatData} {rl : List ℤ} {ridx : ℕ}
    (h : ∀ b ∈ bm, FinB b) :
    ∀ b ∈ (addRepeatingHoldPatterns rng ds bm rl ridx).1, FinB b := by
  unfold addRepeatingHoldPatterns
  refine foldl_inv
    (P := fun st : List EnhancedBeatData × ℕ => ∀ b ∈ st.1, FinB b) ?_ _ _ h
  intro s a hs
  dsimp only
  split
  · exact applyGroupPattern_fin hs
  · exact hs

theorem addSustainedHolds_fin {rng : ℕ → JQ} {aa : AudioAnalysisResult}
    {ds : DifficultySettings} {bm : List EnhancedBeatData} {ridx : ℕ}
    (h : ∀ b ∈ bm, FinB b) :
    ∀ b ∈ (addSustainedHolds rng aa ds bm ridx).1, FinB b := by
  unfold addSustainedHolds
  exact addRepeatingHoldPatterns_fin (sustainedWalk_fin rng ds _ (bm, [], ridx) h)

theorem laneVarietyGo_fin {l : List EnhancedBeatData} :
    ∀ {prev : EnhancedBeatData}, (∀ b ∈ l, FinB b) →
      ∀ b ∈ laneVarietyGo prev l, FinB b := by
  induction l with
  | nil => intro prev _ b hb; simp [laneVarietyGo] at hb
  | cons x xs ih =>
    intro prev h b hb
    cases xs with
    | nil =>
      simp only [laneVarietyGo] at hb
      rcases List.mem_singleton.mp hb with rfl
      exact h b (List.mem_cons_self _ _)
    | cons y ys =>
      simp only [laneVarietyGo] at hb
      split at hb
      · rcases List.mem_cons.mp hb with rfl | hb'
        · exact FinB_set_lane (h x (List.mem_cons_self _ _)) _
        · exact ih (fun z hz => h z (List.mem_cons_of_mem _ hz)) b hb'
      · rcases List.mem_cons.mp hb with rfl | hb'
        · exact h b (List.mem_cons_self _ _)
        · exact ih (fun z hz => h z (List.mem_cons_of_mem _ hz)) b hb'

theorem laneVariety_fin {l : List EnhancedBeatData} (h : ∀ b ∈ l, FinB b) :
    ∀ b ∈ laneVariety l, FinB b := by
  cases l with
  | nil => intro b hb; simp [laneVariety] at hb
  | cons x xs =>
    intro b hb
    simp only [laneVariety] at hb
    rcases List.mem_cons.mp hb with rfl | hb'
    · exact h b (List.mem_cons_self _ _)
    · exact laneVarietyGo_fin (fun z hz => h z (List.mem_cons_of_mem _ hz)) b hb'

theorem jsSortByTime_fin {l : List EnhancedBeatData} (h : ∀ b ∈ l, FinB b) :
    ∀ b ∈ jsSortByTime l, FinB b := by
  intro b hb
  exact h b ((stableSort_perm ltTimeB l).mem_iff.mp hb)

theorem postProcessWithHolds_fin {rng : ℕ → JQ} {aa : AudioAnalysisResult}
    {ds : DifficultySettings} {bm : List EnhancedBeatData} {ridx : ℕ}
    (h : ∀ b ∈ bm, FinB b) :
    ∀ b ∈ (postProcessWithHolds rng aa ds bm ridx).1, FinB b := by
  unfold postProcessWithHolds
  dsimp only
  refine laneVariety_fin (addSustainedHolds_fin ?_)
  intro b hb
  exact jsSortByTime_fin h b (spacingFilter_subset b hb)

theorem jlt_zero_num_pos {q : JQ} (h : JNum.jlt 0 (JNum.fin q) = true) : 0 < q.num := by
  have h' : (JQ.ofInt 0).blt q = true := h
  simp only [JQ.blt, JQ.ofInt, decide_eq_true_eq] at h'
  omega

/-- A finite positive BPM gives a finite bar duration `(60 / bpm) * 4`. -/
theorem barDuration_isF {bpm : JNum} (hf : bpm.isF = true)
    (hpos : JNum.jlt 0 bpm = true) : (((60 : JNum) / bpm) * 4).isF = true := by
  cases bpm with
  | fin q =>
    have hq : 0 < q.num := jlt_zero_num_pos hpos
    exact mul_isF (div_isF rfl (by omega)) rfl
  | nan => exact absurd hf (by decide)
  | pinf => exact absurd hf (by decide)
  | ninf => exact absurd hf (by decide)

/-- With a finite bar duration and all-finite onsets, every bar produced by
`segmentIntoBars` has finite numeric data. -/
theorem segmentIntoBars_finBar {onsets : List Onset} {bpm dur : JNum}
    (hbd : (((60 : JNum) / bpm) * 4).isF = true) (hons : ∀ o ∈ onsets, FinO o) :
    ∀ bar ∈ segmentIntoBars onsets bpm dur, FinBar bar := by
  intro bar hbar
  unfold segmentIntoBars at hbar
  have hs := segmentLoop_fin hbd hons _ 0 rfl bar hbar
  exact ⟨hs.1, hs.2.1, fun o ho => hons o (hs.2.2.1 o ho), hs.2.2.2⟩

/-- The full pipeline preserves finiteness of every output field under a
sane input: every beat of `generateBeatmap` has finite `time`, `intensity`,
`frequency` and `holdDuration` (the lane is an integer by construction). -/
theorem generateBeatmap_fin (log2 : JNum → JNum) (rng : ℕ → JQ)
    (aa : AudioAnalysisResult) (ds : DifficultySettings) (hin : FinInput aa) :
    ∀ b ∈ generateBeatmap log2 rng aa ds, FinB b := by
  unfold generateBeatmap
  dsimp only
  have honsets : ∀ o ∈ detectMusicalOnsets aa.beats, FinO o :=
    detectMusicalOnsets_fin hin.2.2.2
  have hbd := barDuration_isF hin.1 hin.2.1
  have hbars : ∀ p ∈ (segmentIntoBars (detectMusicalOnsets aa.beats) aa.bpm
      aa.duration).enum, FinBar p.2 := by
    intro p hp
    exact segmentIntoBars_finBar hbd honsets _ (mem_of_mem_enum hp)
  refine jsSortByTime_fin (postProcessWithHolds_fin
    (barsLoop_spec rng aa (generatorMorphConfig ds) aa.bpm
      (calculateSpeedMultiplier aa ds) (analyzeSongStructure aa.energy aa.duration) rfl
      _ [] _ hbars ?_ ?_))
  · intro b hb
    simp at hb
  · intro t ht
    cases ht

/-! ## Concrete instantiations used by the witnesses -/

instance (b : BeatData) : Decidable (FinBD b) := by
  unfold FinBD
  infer_instance

instance (aa : AudioAnalysisResult) : Decidable (FinInput aa) := by
  unfold FinInput
  infer_instance

/-- A trivial stand-in for `Math.log2` (the analyzer result is discarded by
the generator, so any function works for generator-level witnesses). -/
def wlog2 : JNum → JNum := fun _ => 0

/-- A deterministic stand-in for `Math.random` returning 0 at each draw. -/
def wrng : ℕ → JQ := fun _ => JQ.ofInt 0

/-- Concrete difficulty settings used by the witnesses. -/
def dsW : DifficultySettings :=
  { level := DifficultyLevel.medium, speedMultiplier := 1, noteCapacity := 100,
    timingWindow := 0.15, holdNoteFrequency := 0.3, complexPatterns := false }

/-- A degenerate analysis input: zero duration, no energy, no beats. -/
def aaDeg : AudioAnalysisResult :=
  { bpm := 120, beats := [], duration := 0, energy := [] }

/-- A small non-degenerate analysis input. -/
def aaW : AudioAnalysisResult :=
  { bpm := 120, beats := [], duration := 4, energy := [0.5, 0.5] }

/-- Claim C1: for every sane-typed analysis input (finite positive BPM,
finite duration, finite numeric fields on every beat) that is degenerate
-- `duration = 0`, or `energy = []`, or `beats = []` -- and any difficulty
settings, `generateBeatmap` returns normally (the embedding is total, so
no exception is modelled) a list in which no beat event has a NaN or
infinite value in `time`, `intensity`, `frequency` or `holdDuration`
(`lane` is an integer by construction in this embedding). -/
theorem claim_C1_degenerate_input_safety (log2 : JNum → JNum) (rng : ℕ → JQ)
    (aa : AudioAnalysisResult) (ds : DifficultySettings) (hin : FinInput aa)
    (_hdeg : aa.duration = 0 ∨ aa.energy = [] ∨ aa.beats = []) :
    ∀ b ∈ generateBeatmap log2 rng aa ds, FinB b :=
  generateBeatmap_fin log2 rng aa ds hin

theorem claim_C1_degenerate_input_safety_witness :
    FinInput aaDeg ∧ (aaDeg.duration = 0 ∨ aaDeg.energy = [] ∨ aaDeg.beats = []) ∧
      ∀ b ∈ generateBeatmap wlog2 wrng aaDeg dsW, FinB b :=
  ⟨by decide, Or.inl (by decide),
    claim_C1_degenerate_input_safety wlog2 wrng aaDeg dsW (by decide)
      (Or.inl (by decide))⟩

/-- Claim C2: for every analysis input with finite positive BPM, finite
duration and finite beat fields, and any difficulty settings, the beat
list returned by `generateBeatmap` is sorted ascending by time:
consecutive beats satisfy `beats[i].time <= beats[i+1].time`. -/
theorem claim_C2_time_ordering (log2 : JNum → JNum) (rng : ℕ → JQ)
    (aa : AudioAnalysisResult) (ds : DifficultySettings) (hin : FinInput aa) :
    List.Pairwise leTime (generateBeatmap log2 rng aa ds) := by
  have hfin := generateBeatmap_fin log2 rng aa ds hin
  unfold generateBeatmap at hfin ⊢
  dsimp only at hfin ⊢
  unfold jsSortByTime at hfin ⊢
  exact stableSort_sorted (fun y hy =>
    (hfin y ((stableSort_perm _ _).mem_iff.mpr hy)).1)

theorem claim_C2_time_ordering_witness :
    FinInput aaW ∧ List.Pairwise leTime (generateBeatmap wlog2 wrng aaW dsW) :=
  ⟨by decide, claim_C2_time_ordering wlog2 wrng aaW dsW (by decide)⟩

/-! ## Section-partition development (structure analyzer) -/

/-- Chain contiguity: starting from `s`, each section starts exactly where
the previous one stopped, and the chain ends at `e`. -/
def contiguousFrom : JNum → List SectionData → JNum → Prop
  | s, [], e => s = e
  | s, sec :: rest, e => sec.start = s ∧ contiguousFrom sec.stop rest e

theorem contiguousFrom_append_one {s m : JNum} {l : List SectionData} {t : SectionData}
    (h : contiguousFrom s l m) (ht : t.start = m) :
    contiguousFrom s (l ++ [t]) t.stop := by
  induction l generalizing s with
  | nil =>
    refine ⟨?_, rfl⟩
    rw [ht]
    exact h.symm
  | cons x xs ih =>
    exact ⟨h.1, ih h.2⟩

theorem fin_div_fin {a b : JQ} (hb : b.num ≠ 0) :
    JNum.fin a / JNum.fin b = JNum.fin (a.div b) := by
  simp [jdiv_def, JNum.div, hb]

theorem fin_mul_fin (a b : JQ) : JNum.fin a * JNum.fin b = JNum.fin (a.mul b) := rfl

theorem jle_fin_iff (a b : JQ) :
    JNum.jle (JNum.fin a) (JNum.fin b) = true ↔ a.toRat ≤ b.toRat := by
  simpa [JNum.jle] using JQ.ble_iff a b


/-- The windowed energy walk keeps the section chain contiguous from 0 and
each section's start at or before its stop, with the running section start
a finite value between 0, the current window position and the duration. -/
theorem structLoop_chain {energy : List JNum} {dq : JQ} (hd0 : 0 ≤ dq.toRat) (ws : ℕ) :
    ∀ (fuel i : ℕ) (st : StructState) (sq : JQ),
      st.currentSectionStart = JNum.fin sq →
      contiguousFrom 0 st.sections st.currentSectionStart →
      (∀ s ∈ st.sections, JNum.jle s.start s.stop = true) →
      0 ≤ sq.toRat →
      sq.toRat ≤ ((i : ℚ) / (energy.length : ℚ)) * dq.toRat →
      sq.toRat ≤ dq.toRat →
      ∃ sq' : JQ,
        (structLoop energy (JNum.fin dq) ws fuel i st).currentSectionStart
          = JNum.fin sq' ∧
        contiguousFrom 0 (structLoop energy (JNum.fin dq) ws fuel i st).sections
          (structLoop energy (JNum.fin dq) ws fuel i st).currentSectionStart ∧
        (∀ s ∈ (structLoop energy (JNum.fin dq) ws fuel i st).sections,
          JNum.jle s.start s.stop = true) ∧
        0 ≤ sq'.toRat ∧ sq'.toRat ≤ dq.toRat := by
  intro fuel
  induction fuel with
  | zero =>
    intro i st sq hstart hchain hle h0 _ hdur
    exact ⟨sq, hstart, hchain, hle, h0, hdur⟩
  | succ fuel ih =>
    intro i st sq hstart hchain hle h0 hbound hdur
    simp only [structLoop]
    by_cases hg : (i : ℤ) < (energy.length : ℤ) - (ws : ℤ)
    · rw [if_pos hg]
      have hlen : 0 < energy.length := by omega
      have hlenQ : (0 : ℚ) < (energy.length : ℚ) := by exact_mod_cast hlen
      have hlen' : (JQ.ofInt (energy.length : ℤ)).num ≠ 0 := by
        simp only [JQ.ofInt]
        omega
      have htp : jnat i / jnat energy.length * JNum.fin dq
          = JNum.fin (((JQ.ofInt (i : ℤ)).div (JQ.ofInt (energy.length : ℤ))).mul dq) := by
        rw [show jnat i = JNum.fin (JQ.ofInt (i : ℤ)) from rfl,
          show jnat energy.length = JNum.fin (JQ.ofInt (energy.length : ℤ)) from rfl,
          fin_div_fin hlen', fin_mul_fin]
      have htq : (((JQ.ofInt (i : ℤ)).div (JQ.ofInt (energy.length : ℤ))).mul dq).toRat
          = ((i : ℚ) / (energy.length : ℚ)) * dq.toRat := by
        rw [JQ.toRat_mul, JQ.toRat_div _ _ hlen', JQ.toRat_ofInt, JQ.toRat_ofInt]
        push_cast
        ring
      have hmono : ((i : ℚ) / (energy.length : ℚ)) * dq.toRat
          ≤ (((i + ws : ℕ) : ℚ) / (energy.length : ℚ)) * dq.toRat := by
        refine mul_le_mul_of_nonneg_right ?_ hd0
        refine (div_le_div_iff_of_pos_right hlenQ).mpr ?_
        exact_mod_cast Nat.le_add_right i ws
      split
      · refine ih (i + ws) _
          (((JQ.ofInt (i : ℤ)).div (JQ.ofInt (energy.length : ℤ))).mul dq)
          htp ?_ ?_ ?_ ?_ ?_
        · exact contiguousFrom_append_one hchain rfl
        · intro s hs
          rcases List.mem_append.mp hs with hs' | hs'
          · exact hle s hs'
          · rcases List.mem_singleton.mp hs' with rfl
            show JNum.jle st.currentSectionStart
              (jnat i / jnat energy.length * JNum.fin dq) = true
            rw [hstart, htp, jle_fin_iff, htq]
            exact hbound
        · rw [htq]
          exact mul_nonneg (div_nonneg (Nat.cast_nonneg i) (Nat.cast_nonneg _)) hd0
        · rw [htq]
          exact hmono
        · rw [htq]
          have hi1 : ((i : ℚ) / (energy.length : ℚ)) ≤ 1 := by
            rw [div_le_one hlenQ]
            exact_mod_cast by omega
          exact mul_le_of_le_one_left hd0 hi1
      · exact ih (i + ws) st sq hstart hchain hle h0 (hbound.trans hmono) hdur
    · rw [if_neg hg]
      exact ⟨sq, hstart, hchain, hle, h0, hdur⟩

/-- Claim C3: for every energy-contour array and every finite duration > 0,
the section list produced by `analyzeSongStructure` is nonempty and
chain-contiguous from 0 to `duration` -- the first section starts at 0,
each subsequent section starts where the previous one ends, and the last
section ends at `duration` -- and every section's start is at or before
its stop; hence the sections are ordered by start time, non-overlapping,
and their union is exactly `[0, duration]`. -/
theorem claim_C3_section_partition (energy : List JNum) (duration : JNum)
    (hf : duration.isF = true) (hpos : JNum.jlt 0 duration = true) :
    (analyzeSongStructure energy duration).sections ≠ [] ∧
      contiguousFrom 0 (analyzeSongStructure energy duration).sections duration ∧
      ∀ s ∈ (analyzeSongStructure energy duration).sections,
        JNum.jle s.start s.stop = true := by
  cases duration with
  | nan => exact absurd hf (by decide)
  | pinf => exact absurd hf (by decide)
  | ninf => exact absurd hf (by decide)
  | fin dq =>
    have hd : 0 < dq.toRat := by
      have h' : (JQ.ofInt 0).blt dq = true := hpos
      have h'' := (JQ.blt_iff _ _).mp h'
      rwa [JQ.toRat_ofInt, Int.cast_zero] at h''
    obtain ⟨sq', hstart', hchain', hle', h0', hdur'⟩ :=
      @structLoop_chain energy dq hd.le
        (max 10 (energy.length / 20)) (energy.length + 1)
        (max 10 (energy.length / 20))
        { sections := [], currentSectionStart := 0,
          currentSectionType := SongSection.intro,
          lastSectionEnergy := jsum (energy.take (max 10 (energy.length / 20)))
            / jnat (max 10 (energy.length / 20)) }
        (JQ.ofInt 0) rfl rfl (by intro s hs; simp at hs)
        (by rw [JQ.toRat_ofInt, Int.cast_zero])
        (by
          rw [JQ.toRat_ofInt, Int.cast_zero]
          exact mul_nonneg (div_nonneg (Nat.cast_nonneg _) (Nat.cast_nonneg _)) hd.le)
        (by rw [JQ.toRat_ofInt, Int.cast_zero]; exact hd.le)
    refine ⟨by simp [analyzeSongStructure], ?_, ?_⟩
    · exact contiguousFrom_append_one hchain' rfl
    · intro s hs
      rcases List.mem_append.mp hs with hs' | hs'
      · exact hle' s hs'
      · rcases List.mem_singleton.mp hs' with rfl
        show JNum.jle _ (JNum.fin dq) = true
        rw [hstart', jle_fin_iff]
        exact hdur'

theorem claim_C3_section_partition_witness :
    (40 : JNum).isF = true ∧ JNum.jlt 0 40 = true ∧
      ((analyzeSongStructure [] 40).sections ≠ [] ∧
        contiguousFrom 0 (analyzeSongStructure [] 40).sections 40 ∧
        ∀ s ∈ (analyzeSongStructure [] 40).sections,
          JNum.jle s.start s.stop = true) :=
  ⟨rfl, by decide, claim_C3_section_partition [] 40 rfl (by decide)⟩

/-! ## Bar-coverage development (segmentIntoBars) -/

theorem jlt_fin_iff (a b : JQ) :
    JNum.jlt (JNum.fin a) (JNum.fin b) = true ↔ a.toRat < b.toRat := by
  simpa [JNum.jlt] using JQ.blt_iff a b

theorem JQ.num_ne_zero_of_toRat_pos {q : JQ} (h : 0 < q.toRat) : q.num ≠ 0 := by
  intro h0
  rw [show q.toRat = (q.num : ℚ) / (q.den : ℚ) from rfl, h0] at h
  simp at h

/-- Chain contiguity of bar windows: the first bar starts at `s`, each
subsequent bar starts exactly where the previous one's window ended, and
the final window ends at `e`. -/
def barChainFrom : JNum → List Bar → JNum → Prop
  | s, [], e => s = e
  | s, b :: rest, e => b.startTime = s ∧ barChainFrom b.endTime rest e

theorem segmentLoop_nil {onsets : List Onset} {bd dur t : JNum}
    (h : ¬JNum.jlt t dur = true) :
    ∀ fuel, segmentLoop onsets bd dur fuel t = [] := by
  intro fuel
  cases fuel with
  | zero => rfl
  | succ fuel => simp [segmentLoop, h]

/-- With a positive finite bar length, positive remaining duration and
enough fuel, the bar loop emits a contiguous chain of nonempty windows
ending exactly at the duration, each window clipped by the duration. -/
theorem segmentLoop_chain {onsets : List Onset} {bq dq : JQ} (hb : 0 < bq.toRat) :
    ∀ (fuel : ℕ) (tq : JQ),
      tq.toRat < dq.toRat →
      dq.toRat ≤ tq.toRat + fuel * bq.toRat →
      barChainFrom (JNum.fin tq)
        (segmentLoop onsets (JNum.fin bq) (JNum.fin dq) fuel (JNum.fin tq))
        (JNum.fin dq) ∧
      ∀ bar ∈ segmentLoop onsets (JNum.fin bq) (JNum.fin dq) fuel (JNum.fin tq),
        JNum.jlt bar.startTime bar.endTime = true ∧
        bar.endTime = JNum.jmin (bar.startTime + JNum.fin bq) (JNum.fin dq) := by
  intro fuel
  induction fuel with
  | zero =>
    intro tq hlt hfuel
    exfalso
    push_cast at hfuel
    linarith
  | succ fuel ih =>
    intro tq hlt hfuel
    have hg : JNum.jlt (JNum.fin tq) (JNum.fin dq) = true := (jlt_fin_iff _ _).mpr hlt
    simp only [segmentLoop, if_pos hg]
    have hstep : JNum.fin tq + JNum.fin bq = JNum.fin (tq.add bq) := rfl
    by_cases hcase : (tq.add bq).toRat < dq.toRat
    · have hjm : (mkBar onsets (JNum.fin bq) (JNum.fin dq) (JNum.fin tq)).endTime
          = JNum.fin (tq.add bq) := by
        show JNum.jmin (JNum.fin tq + JNum.fin bq) (JNum.fin dq) = JNum.fin (tq.add bq)
        rw [hstep]
        simp only [JNum.jmin]
        rw [if_pos ((jlt_fin_iff _ _).mpr hcase)]
      have hrec := ih (tq.add bq) hcase (by
        rw [JQ.toRat_add]
        push_cast at hfuel ⊢
        linarith)
      refine ⟨⟨rfl, ?_⟩, ?_⟩
      · rw [hjm, hstep]
        exact hrec.1
      · intro bar hbar
        rcases List.mem_cons.mp hbar with rfl | hbar'
        · refine ⟨?_, rfl⟩
          rw [hjm, show (mkBar onsets (JNum.fin bq) (JNum.fin dq)
              (JNum.fin tq)).startTime = JNum.fin tq from rfl, jlt_fin_iff,
            JQ.toRat_add]
          linarith
        · rw [hstep] at hbar'
          exact hrec.2 bar hbar'
    · have hjlt : JNum.jlt (JNum.fin (tq.add bq)) (JNum.fin dq) = false := by
        rw [← Bool.not_eq_true, jlt_fin_iff]
        exact hcase
      have hjm : (mkBar onsets (JNum.fin bq) (JNum.fin dq) (JNum.fin tq)).endTime
          = JNum.fin dq := by
        show JNum.jmin (JNum.fin tq + JNum.fin bq) (JNum.fin dq) = JNum.fin dq
        rw [hstep]
        simp only [JNum.jmin]
        rw [hjlt]
        simp
      have hrest : segmentLoop onsets (JNum.fin bq) (JNum.fin dq) fuel
          (JNum.fin tq + JNum.fin bq) = [] := by
        rw [hstep]
        exact segmentLoop_nil (by simp [hjlt]) fuel
      refine ⟨⟨rfl, ?_⟩, ?_⟩
      · rw [hjm, hrest]
        exact rfl
      · intro bar hbar
        rw [hrest] at hbar
        rcases List.mem_singleton.mp (by simpa using hbar) with rfl
        refine ⟨?_, rfl⟩
        rw [hjm, show (mkBar onsets (JNum.fin bq) (JNum.fin dq)
            (JNum.fin tq)).startTime = JNum.fin tq from rfl]
        exact hg

/-- The bar windows do not depend on the onset list. -/
theorem segmentLoop_times (onsets : List Onset) (bd dur : JNum) :
    ∀ (fuel : ℕ) (t : JNum),
      (segmentLoop onsets bd dur fuel t).map (fun b => (b.startTime, b.endTime))
        = (segmentLoop [] bd dur fuel t).map (fun b => (b.startTime, b.endTime)) := by
  intro fuel
  induction fuel with
  | zero => intro t; rfl
  | succ fuel ih =>
    intro t
    simp only [segmentLoop]
    split
    · simp only [List.map_cons, ih]
      rfl
    · rfl

theorem segmentIntoBars_times (onsets : List Onset) (bpm dur : JNum) :
    (segmentIntoBars onsets bpm dur).map (fun b => (b.startTime, b.endTime))
      = (segmentIntoBars [] bpm dur).map (fun b => (b.startTime, b.endTime)) := by
  unfold segmentIntoBars
  exact segmentLoop_times onsets _ dur _ 0

/-- Claim C4: for every finite BPM > 0 and finite duration > 0,
`segmentIntoBars` emits bars contiguously from time 0 -- the first bar
starts at 0, each subsequent bar starts where the previous bar's window
ended, and the final window ends at the duration -- with every window
nonempty and of the form `[start, min(start + (60/BPM)*4, duration))`, so
the windows exactly cover `[0, duration)` with no gaps or overlaps; and
for BPM = 120 and duration = 8 the windows are exactly
`[0,2), [2,4), [4,6), [6,8)`. -/
theorem claim_C4_bar_coverage (onsets : List Onset) (bpm duration : JNum)
    (hbf : bpm.isF = true) (hbpos : JNum.jlt 0 bpm = true)
    (hdf : duration.isF = true) (hdpos : JNum.jlt 0 duration = true) :
    (barChainFrom 0 (segmentIntoBars onsets bpm duration) duration ∧
      ∀ bar ∈ segmentIntoBars onsets bpm duration,
        JNum.jlt bar.startTime bar.endTime = true ∧
        bar.endTime
          = JNum.jmin (bar.startTime + ((60 : JNum) / bpm) * 4) duration) ∧
    (segmentIntoBars onsets 120 8).map (fun b => (b.startTime, b.endTime))
      = [(0, 2), (2, 4), (4, 6), (6, 8)] := by
  refine ⟨?_, by rw [segmentIntoBars_times]; decide⟩
  cases bpm with
  | nan => exact absurd hbf (by decide)
  | pinf => exact absurd hbf (by decide)
  | ninf => exact absurd hbf (by decide)
  | fin pq =>
  cases duration with
  | nan => exact absurd hdf (by decide)
  | pinf => exact absurd hdf (by decide)
  | ninf => exact absurd hdf (by decide)
  | fin dq =>
  have hp : 0 < pq.toRat := by
    have h'' := (JQ.blt_iff _ _).mp (hbpos : (JQ.ofInt 0).blt pq = true)
    rw [JQ.toRat_ofInt] at h''
    exact_mod_cast h''
  have hd : 0 < dq.toRat := by
    have h'' := (JQ.blt_iff _ _).mp (hdpos : (JQ.ofInt 0).blt dq = true)
    rw [JQ.toRat_ofInt] at h''
    exact_mod_cast h''
  have hpq : pq.num ≠ 0 := JQ.num_ne_zero_of_toRat_pos hp
  have hbd : ((60 : JNum) / JNum.fin pq) * 4
      = JNum.fin (((JQ.ofInt 60).div pq).mul (JQ.ofInt 4)) := by
    rw [show (60 : JNum) = JNum.fin (JQ.ofInt 60) from rfl,
      show (4 : JNum) = JNum.fin (JQ.ofInt 4) from rfl, fin_div_fin hpq, fin_mul_fin]
  set bq := ((JQ.ofInt 60).div pq).mul (JQ.ofInt 4) with hbq
  have hbqpos : 0 < bq.toRat := by
    rw [hbq, JQ.toRat_mul, JQ.toRat_div _ _ hpq, JQ.toRat_ofInt, JQ.toRat_ofInt]
    push_cast
    positivity
  have hbqnum : bq.num ≠ 0 := JQ.num_ne_zero_of_toRat_pos hbqpos
  have hblt : (JQ.ofInt 0).blt bq = true := by
    rw [JQ.blt_iff, JQ.toRat_ofInt, Int.cast_zero]
    exact hbqpos
  have hfuel : dq.toRat ≤ (JQ.ofInt 0).toRat
      + ((dq.div bq).floorI.toNat + 2 : ℕ) * bq.toRat := by
    rw [JQ.toRat_ofInt, Int.cast_zero, zero_add]
    have hy : 0 ≤ (dq.div bq).toRat := by
      rw [JQ.toRat_div _ _ hbqnum]
      positivity
    have hfl : ((dq.div bq).floorI.toNat : ℚ) = ((dq.div bq).floorI : ℚ) := by
      exact_mod_cast congrArg (fun z : ℤ => (z : ℚ))
        (Int.toNat_of_nonneg (by rw [JQ.floorI_eq]; exact Int.floor_nonneg.mpr hy))
    have hlt1 : (dq.div bq).toRat < ((dq.div bq).floorI : ℚ) + 1 := by
      rw [JQ.floorI_eq]
      exact Int.lt_floor_add_one _
    have hdiv : (dq.div bq).toRat * bq.toRat = dq.toRat := by
      rw [JQ.toRat_div _ _ hbqnum]
      field_simp
    push_cast
    nlinarith [hlt1, hbqpos, hdiv, hfl]
  have hmain := @segmentLoop_chain onsets bq dq hbqpos
    ((dq.div bq).floorI.toNat + 2) (JQ.ofInt 0)
    (by rw [JQ.toRat_ofInt, Int.cast_zero]; exact hd) hfuel
  constructor
  · show barChainFrom 0 (segmentLoop onsets (((60 : JNum) / JNum.fin pq) * 4)
      (JNum.fin dq) (segmentFuel (((60 : JNum) / JNum.fin pq) * 4) (JNum.fin dq)) 0)
      (JNum.fin dq)
    rw [hbd]
    show barChainFrom 0 (segmentLoop onsets (JNum.fin bq) (JNum.fin dq)
      (segmentFuel (JNum.fin bq) (JNum.fin dq)) (JNum.fin (JQ.ofInt 0))) (JNum.fin dq)
    rw [show segmentFuel (JNum.fin bq) (JNum.fin dq)
      = (dq.div bq).floorI.toNat + 2 from by simp [segmentFuel, hblt]]
    exact hmain.1
  · intro bar hbar
    have hbar' : bar ∈ segmentLoop onsets (JNum.fin bq) (JNum.fin dq)
        ((dq.div bq).floorI.toNat + 2) (JNum.fin (JQ.ofInt 0)) := by
      have : segmentIntoBars onsets (JNum.fin pq) (JNum.fin dq)
          = segmentLoop onsets (JNum.fin bq) (JNum.fin dq)
            ((dq.div bq).floorI.toNat + 2) (JNum.fin (JQ.ofInt 0)) := by
        unfold segmentIntoBars
        rw [hbd]
        dsimp only
        rw [show segmentFuel (JNum.fin bq) (JNum.fin dq)
          = (dq.div bq).floorI.toNat + 2 from by simp [segmentFuel, hblt]]
        rfl
      rwa [this] at hbar
    have h2 := hmain.2 bar hbar'
    refine ⟨h2.1, ?_⟩
    rw [hbd]
    exact h2.2

theorem claim_C4_bar_coverage_witness :
    (120 : JNum).isF = true ∧ JNum.jlt 0 120 = true ∧ (8 : JNum).isF = true ∧
      JNum.jlt 0 8 = true ∧
      ((barChainFrom 0 (segmentIntoBars [] 120 8) 8 ∧
        ∀ bar ∈ segmentIntoBars [] 120 8,
          JNum.jlt bar.startTime bar.endTime = true ∧
          bar.endTime = JNum.jmin (bar.startTime + ((60 : JNum) / 120) * 4) 8) ∧
      (segmentIntoBars [] 120 8).map (fun b => (b.startTime, b.endTime))
        = [(0, 2), (2, 4), (4, 6), (6, 8)]) :=
  ⟨rfl, by decide, rfl, by decide,
    claim_C4_bar_coverage [] 120 8 rfl (by decide) rfl (by decide)⟩

/-- Claim C5 is refuted: on an energy contour constant at 0.5 over a
40-second duration the analyzer emits a single section classified intro
covering the whole song -- no energy change ever exceeds the 0.15
threshold, so no boundary is created and no outro or verse section
exists. -/
theorem claim_C5_counterexample :
    (analyzeSongStructure (List.replicate 40 0.5) 40).sections.length = 1 ∧
      ∀ s ∈ (analyzeSongStructure (List.replicate 40 0.5) 40).sections,
        s.type = SongSection.intro := by
  decide

/-- Claim C5 (amended): on the constant-0.5, 40-second contour
`analyzeSongStructure` returns exactly one section, spanning `[0, 40]` and
classified intro (the final section's type reuses the running section
type, initialised to intro, because its length 40 is not below 20). -/
theorem claim_C5_constant_energy_single_intro :
    (analyzeSongStructure (List.replicate 40 0.5) 40).sections.map
        (fun s => (s.start, s.stop, s.type))
      = [(0, 40, SongSection.intro)] := by
  decide

/-- Claim C6: with the generator's n-gram size 4 and minimum repetition
distance 16, on a candidate of at least 4 beats whose key is recorded:
used 1 beat ago the gate fires (true); used 17 beats ago with recorded
frequency 1 it does not (false). -/
theorem claim_C6_anti_repetition_gate (m : PatternMemory)
    (beats : List EnhancedBeatData) (existing : PatternNGram)
    (hgram : m.config.ngramSize = 4) (hmin : m.config.minRepetitionDistance = 16)
    (hlen : 4 ≤ beats.length)
    (hfind : m.patternHistory.find?
        (fun p => decide (p.sequence = createSequenceKey m.config beats))
      = some existing) :
    (m.beatCounter = existing.lastUsed + 1 →
      m.wouldBeRepetitive beats = true) ∧
    (m.beatCounter = existing.lastUsed + 17 → existing.frequency = 1 →
      m.wouldBeRepetitive beats = false) := by
  unfold PatternMemory.wouldBeRepetitive
  rw [if_neg (by omega)]
  dsimp only
  rw [hfind]
  constructor
  · intro h1
    simp only [Bool.or_eq_true, decide_eq_true_eq]
    left
    omega
  · intro h17 hfreq
    simp only [Bool.or_eq_false_iff, decide_eq_false_iff_not, not_lt]
    constructor
    · omega
    · omega

/-- A 4-beat candidate and two pre-loaded memories for the C6 witness. -/
def beatsW : List EnhancedBeatData := List.replicate 4 defaultBeat

/-- An n-gram recording the key of `beatsW`, frequency 1, last used at
beat 0. -/
def ngW : PatternNGram :=
  { sequence := createSequenceKey generatorMemoryConfig beatsW, frequency := 1,
    lastUsed := 0, ctxSection := SongSection.intro, ctxEnergy := 0 }

/-- Memory whose counter is 1 beat past `ngW.lastUsed`. -/
def pmA : PatternMemory :=
  { patternHistory := [ngW], beatCounter := 1, config := generatorMemoryConfig }

/-- Memory whose counter is 17 beats past `ngW.lastUsed`. -/
def pmB : PatternMemory :=
  { patternHistory := [ngW], beatCounter := 17, config := generatorMemoryConfig }

theorem claim_C6_anti_repetition_gate_witness :
    pmA.wouldBeRepetitive beatsW = true ∧ pmB.wouldBeRepetitive beatsW = false :=
  ⟨(claim_C6_anti_repetition_gate pmA beatsW ngW rfl rfl (by decide) (by decide)).1
      rfl,
   (claim_C6_anti_repetition_gate pmB beatsW ngW rfl rfl (by decide) (by decide)).2
      rfl rfl⟩

/-! ## Quality-score development (BeatmapAnalyzer) -/

/-- The numeric value of a finite JS number (0 for NaN and the infinities,
which the lemmas using it always exclude). -/
def JNum.toQ : JNum → ℚ
  | .fin a => a.toRat
  | _ => 0

theorem toQ_fin (a : JQ) : (JNum.fin a).toQ = a.toRat := rfl

theorem isF_exists {x : JNum} (h : x.isF = true) : ∃ q, x = JNum.fin q := by
  cases x with
  | fin q => exact ⟨q, rfl⟩
  | nan => exact absurd h (by decide)
  | pinf => exact absurd h (by decide)
  | ninf => exact absurd h (by decide)

/-- A plain fraction constructor, used to name the exact values of the
decimal literals of `generateQualityScore`. -/
def mkJQ (n : ℤ) (d : ℕ) (h : 0 < d) : JQ := ⟨n, d, h⟩

theorem toRat_mk (n : ℤ) (d : ℕ) (h : 0 < d) :
    (mkJQ n d h).toRat = (n : ℚ) / (d : ℚ) := rfl

theorem fin_sub_fin (a b : JQ) : JNum.fin a - JNum.fin b = JNum.fin (a.add b.neg) := rfl

theorem fin_add_fin (a b : JQ) : JNum.fin a + JNum.fin b = JNum.fin (a.add b) := rfl

theorem jround_fin (a : JQ) :
    (JNum.fin a).jround = JNum.fin (JQ.ofInt ((a.add (mkJQ 1 2 two_pos)).floorI)) := rfl

theorem lit03 : (0.3 : JNum) = JNum.fin (mkJQ 3 10 (by omega)) := by decide

theorem lit02 : (0.2 : JNum) = JNum.fin (mkJQ 1 5 (by omega)) := by decide

theorem lit025 : (0.25 : JNum) = JNum.fin (mkJQ 1 4 (by omega)) := by decide

theorem lit015 : (0.15 : JNum) = JNum.fin (mkJQ 3 20 (by omega)) := by decide

theorem lit1 : (1 : JNum) = JNum.fin (JQ.ofInt 1) := rfl

theorem lit100 : (100 : JNum) = JNum.fin (JQ.ofInt 100) := rfl

/-- A sub-metric taking a finite value in `[0, 1]`. -/
def Unit01 (x : JNum) : Prop := x.isF = true ∧ 0 ≤ x.toQ ∧ x.toQ ≤ 1

/-- Claim C7 (amended): `generateQualityScore` returns an integer, and it
lies in `[0, 100]` whenever every sub-metric the blend reads lies in
`[0, 1]`.  The hypothesis is necessary: the analyzer itself does not bound
`dynamicRange` (or `peakIntensity`), so without it the score is unbounded
-- see the counterexample. -/
theorem claim_C7_quality_score_bounds (a : BeatmapAnalytics)
    (hpe : Unit01 a.diversityMetrics.patternEntropy)
    (hnd : Unit01 a.diversityMetrics.ngramDiversity)
    (hrd : Unit01 a.diversityMetrics.repetitionDistance)
    (hlb : Unit01 a.diversityMetrics.laneBalance)
    (hha : Unit01 a.ergonomicsMetrics.handAlternation)
    (hjd : Unit01 a.ergonomicsMetrics.jumpDistance)
    (hrf : Unit01 a.ergonomicsMetrics.restFrequency)
    (hsl : Unit01 a.ergonomicsMetrics.staminaLoad)
    (hrs : Unit01 a.ergonomicsMetrics.readabilityScore)
    (hba : Unit01 a.musicalityMetrics.beatAlignment)
    (hae : Unit01 a.musicalityMetrics.accentEmphasis)
    (hpc : Unit01 a.musicalityMetrics.phraseCoherence)
    (hdr : Unit01 a.musicalityMetrics.dynamicRange)
    (hcx : Unit01 a.performanceMetrics.complexity)
    (hpi : Unit01 a.performanceMetrics.peakIntensity)
    (hlc : Unit01 a.performanceMetrics.learningCurve)
    (hrp : Unit01 a.performanceMetrics.replayability) :
    ∃ n : ℤ, generateQualityScore a = JNum.fin (JQ.ofInt n) ∧ 0 ≤ n ∧ n ≤ 100 := by
  obtain ⟨q1, e1⟩ := isF_exists hpe.1
  obtain ⟨q2, e2⟩ := isF_exists hnd.1
  obtain ⟨q3, e3⟩ := isF_exists hrd.1
  obtain ⟨q4, e4⟩ := isF_exists hlb.1
  obtain ⟨q5, e5⟩ := isF_exists hha.1
  obtain ⟨q6, e6⟩ := isF_exists hjd.1
  obtain ⟨q7, e7⟩ := isF_exists hrf.1
  obtain ⟨q8, e8⟩ := isF_exists hsl.1
  obtain ⟨q9, e9⟩ := isF_exists hrs.1
  obtain ⟨q10, e10⟩ := isF_exists hba.1
  obtain ⟨q11, e11⟩ := isF_exists hae.1
  obtain ⟨q12, e12⟩ := isF_exists hpc.1
  obtain ⟨q13, e13⟩ := isF_exists hdr.1
  obtain ⟨q14, e14⟩ := isF_exists hcx.1
  obtain ⟨q15, e15⟩ := isF_exists hpi.1
  obtain ⟨q16, e16⟩ := isF_exists hlc.1
  obtain ⟨q17, e17⟩ := isF_exists hrp.1
  rw [e1] at hpe; rw [e2] at hnd; rw [e3] at hrd; rw [e4] at hlb
  rw [e5] at hha; rw [e6] at hjd; rw [e7] at hrf; rw [e8] at hsl
  rw [e9] at hrs; rw [e10] at hba; rw [e11] at hae; rw [e12] at hpc
  rw [e13] at hdr; rw [e14] at hcx; rw [e15] at hpi; rw [e16] at hlc
  rw [e17] at hrp
  simp only [Unit01, toQ_fin] at hpe hnd hrd hlb hha hjd hrf hsl hrs
  simp only [Unit01, toQ_fin] at hba hae hpc hdr hcx hpi hlc hrp
  unfold generateQualityScore
  dsimp only
  simp only [e1, e2, e3, e4, e5, e6, e7, e8, e9, e10, e11, e12, e13, e14, e15,
    e16, e17, lit03, lit02, lit025, lit015, lit1, lit100, fin_sub_fin,
    fin_mul_fin, fin_add_fin]
  rw [jround_fin]
  refine ⟨_, rfl, ?_, ?_⟩
  · rw [JQ.floorI_eq]
    refine Int.floor_nonneg.mpr ?_
    simp only [JQ.toRat_add, JQ.toRat_mul, JQ.toRat_neg, JQ.toRat_ofInt, toRat_mk]
    push_cast
    linarith [hpe.2.1, hpe.2.2, hnd.2.1, hnd.2.2, hrd.2.1, hrd.2.2, hlb.2.1,
      hlb.2.2, hha.2.1, hha.2.2, hjd.2.1, hjd.2.2, hrf.2.1, hrf.2.2, hsl.2.1,
      hsl.2.2, hrs.2.1, hrs.2.2, hba.2.1, hba.2.2, hae.2.1, hae.2.2, hpc.2.1,
      hpc.2.2, hdr.2.1, hdr.2.2, hcx.2.1, hcx.2.2, hpi.2.1, hpi.2.2, hlc.2.1,
      hlc.2.2, hrp.2.1, hrp.2.2]
  · rw [JQ.floorI_eq]
    rw [Int.floor_le_iff]
    simp only [JQ.toRat_add, JQ.toRat_mul, JQ.toRat_neg, JQ.toRat_ofInt, toRat_mk]
    push_cast
    linarith [hpe.2.1, hpe.2.2, hnd.2.1, hnd.2.2, hrd.2.1, hrd.2.2, hlb.2.1,
      hlb.2.2, hha.2.1, hha.2.2, hjd.2.1, hjd.2.2, hrf.2.1, hrf.2.2, hsl.2.1,
      hsl.2.2, hrs.2.1, hrs.2.2, hba.2.1, hba.2.2, hae.2.1, hae.2.2, hpc.2.1,
      hpc.2.2, hdr.2.1, hdr.2.2, hcx.2.1, hcx.2.2, hpi.2.1, hpi.2.2, hlc.2.1,
      hlc.2.2, hrp.2.1, hrp.2.2]

/-- An exact stand-in for `Math.log2` on the only two arguments the C7
counterexample's analysis evaluates it at: `log2 2 = 1` and `log2 1 = 0`
(both exact real values). -/
def log2c : JNum → JNum := fun x => if x = JNum.fin (JQ.ofInt 2) then 1 else 0

/-- Five well-typed beats on one lane with one extreme intensity: the
analyzer's `dynamicRange` (max minus min intensity) is 10000. -/
def cbeats : List EnhancedBeatData :=
  [{ time := 0, intensity := 0, frequency := 0, type := BeatType.kick, lane := 0,
     pattern := PatternType.template, sect := SongSection.intro },
   { time := 1, intensity := 10000, frequency := 0, type := BeatType.kick, lane := 0,
     pattern := PatternType.template, sect := SongSection.intro },
   { time := 2, intensity := 10000, frequency := 0, type := BeatType.kick, lane := 0,
     pattern := PatternType.template, sect := SongSection.intro },
   { time := 3, intensity := 10000, frequency := 0, type := BeatType.kick, lane := 0,
     pattern := PatternType.template, sect := SongSection.intro },
   { time := 4, intensity := 10000, frequency := 0, type := BeatType.kick, lane := 0,
     pattern := PatternType.template, sect := SongSection.intro }]

/-- Claim C7 is refuted: on the analytics record the analyzer produces for
`cbeats` (`Math.log2` instantiated exactly on the two values it is applied
to), the quality score is the integer 50045, far above 100 -- the
`dynamicRange` term enters the musicality blend unclamped. -/
theorem claim_C7_counterexample :
    generateQualityScore (BeatmapAnalyzer.analyze log2c cbeats)
        = JNum.fin (JQ.ofInt 50045) ∧
      JNum.jlt 100 (generateQualityScore (BeatmapAnalyzer.analyze log2c cbeats))
        = true := by
  constructor
  · decide
  · decide

/-- All-zero analytics, used to instantiate the amended C7 bound. -/
def aZero : BeatmapAnalytics :=
  { diversityMetrics :=
      { patternEntropy := 0, ngramDiversity := 0, repetitionDistance := 0,
        laneBalance := 0, holdVariety := 0 },
    ergonomicsMetrics :=
      { handAlternation := 0, jumpDistance := 0, restFrequency := 0,
        staminaLoad := 0, readabilityScore := 0 },
    musicalityMetrics :=
      { beatAlignment := 0, accentEmphasis := 0, phraseCoherence := 0,
        dynamicRange := 0 },
    performanceMetrics :=
      { complexity := 0, peakIntensity := 0, learningCurve := 0,
        replayability := 0 } }

theorem claim_C7_quality_score_bounds_witness :
    Unit01 (0 : JNum) ∧
      ∃ n : ℤ, generateQualityScore aZero = JNum.fin (JQ.ofInt n) ∧ 0 ≤ n ∧ n ≤ 100 :=
  ⟨⟨rfl, by simp [aZero, JNum.toQ, JQ.toRat, JQ.ofInt], by simp [aZero, JNum.toQ, JQ.toRat, JQ.ofInt]⟩,
    claim_C7_quality_score_bounds aZero
      ⟨rfl, by simp [aZero, JNum.toQ, JQ.toRat, JQ.ofInt], by simp [aZero, JNum.toQ, JQ.toRat, JQ.ofInt]⟩
      ⟨rfl, by simp [aZero, JNum.toQ, JQ.toRat, JQ.ofInt], by simp [aZero, JNum.toQ, JQ.toRat, JQ.ofInt]⟩
      ⟨rfl, by simp [aZero, JNum.toQ, JQ.toRat, JQ.ofInt], by simp [aZero, JNum.toQ, JQ.toRat, JQ.ofInt]⟩
      ⟨rfl, by simp [aZero, JNum.toQ, JQ.toRat, JQ.ofInt], by simp [aZero, JNum.toQ, JQ.toRat, JQ.ofInt]⟩
      ⟨rfl, by simp [aZero, JNum.toQ, JQ.toRat, JQ.ofInt], by simp [aZero, JNum.toQ, JQ.toRat, JQ.ofInt]⟩
      ⟨rfl, by simp [aZero, JNum.toQ, JQ.toRat, JQ.ofInt], by simp [aZero, JNum.toQ, JQ.toRat, JQ.ofInt]⟩
      ⟨rfl, by simp [aZero, JNum.toQ, JQ.toRat, JQ.ofInt], by simp [aZero, JNum.toQ, JQ.toRat, JQ.ofInt]⟩
      ⟨rfl, by simp [aZero, JNum.toQ, JQ.toRat, JQ.ofInt], by simp [aZero, JNum.toQ, JQ.toRat, JQ.ofInt]⟩
      ⟨rfl, by simp [aZero, JNum.toQ, JQ.toRat, JQ.ofInt], by simp [aZero, JNum.toQ, JQ.toRat, JQ.ofInt]⟩
      ⟨rfl, by simp [aZero, JNum.toQ, JQ.toRat, JQ.ofInt], by simp [aZero, JNum.toQ, JQ.toRat, JQ.ofInt]⟩
      ⟨rfl, by simp [aZero, JNum.toQ, JQ.toRat, JQ.ofInt], by simp [aZero, JNum.toQ, JQ.toRat, JQ.ofInt]⟩
      ⟨rfl, by simp [aZero, JNum.toQ, JQ.toRat, JQ.ofInt], by simp [aZero, JNum.toQ, JQ.toRat, JQ.ofInt]⟩
      ⟨rfl, by simp [aZero, JNum.toQ, JQ.toRat, JQ.ofInt], by simp [aZero, JNum.toQ, JQ.toRat, JQ.ofInt]⟩
      ⟨rfl, by simp [aZero, JNum.toQ, JQ.toRat, JQ.ofInt], by simp [aZero, JNum.toQ, JQ.toRat, JQ.ofInt]⟩
      ⟨rfl, by simp [aZero, JNum.toQ, JQ.toRat, JQ.ofInt], by simp [aZero, JNum.toQ, JQ.toRat, JQ.ofInt]⟩
      ⟨rfl, by simp [aZero, JNum.toQ, JQ.toRat, JQ.ofInt], by simp [aZero, JNum.toQ, JQ.toRat, JQ.ofInt]⟩
      ⟨rfl, by simp [aZero, JNum.toQ, JQ.toRat, JQ.ofInt], by simp [aZero, JNum.toQ, JQ.toRat, JQ.ofInt]⟩⟩

/-! ## Anti-repetition variation (C8) -/

/-- A 3-beat intro bar with varied lanes, a hold, and distinct times. -/
def cb8 : List EnhancedBeatData :=
  [{ time := 0, intensity := 1, frequency := 0, type := BeatType.kick, lane := 0,
     pattern := PatternType.template, sect := SongSection.intro },
   { time := 0.5, intensity := 1, frequency := 0, type := BeatType.snare, lane := 3,
     pattern := PatternType.template, sect := SongSection.intro, isHold := true,
     holdDuration := some 1 },
   { time := 1, intensity := 1, frequency := 0, type := BeatType.kick, lane := 2,
     pattern := PatternType.template, sect := SongSection.intro }]

/-- Claim C8 is refuted: the anti-repetition variation pass ignores the
section entirely and always rotates every beat one lane to the right --
on an intro bar (where the claim demands rhythmic timing jitter) the
result is identical to the bridge-section result, the times and hold
flags are untouched, the list length never changes, and the lanes are
rotated `(lane + 1) % 4`. -/
theorem claim_C8_counterexample :
    applyAntiRepetitionVariations cb8 SongSection.intro
        = applyAntiRepetitionVariations cb8 SongSection.bridge ∧
      (applyAntiRepetitionVariations cb8 SongSection.intro).map (fun b => b.time)
        = cb8.map (fun b => b.time) ∧
      (applyAntiRepetitionVariations cb8 SongSection.intro).map (fun b => b.isHold)
        = cb8.map (fun b => b.isHold) ∧
      (applyAntiRepetitionVariations cb8 SongSection.intro).map (fun b => b.lane)
        = [1, 0, 3] := by
  decide

/-- Claim C8 (amended): when a bar is flagged as repetitive the generator
applies one variation that does not depend on the section: every beat's
lane advances by one modulo four, and every other field (time, intensity,
hold state, everything) is unchanged; the bar keeps its length. -/
theorem claim_C8_lane_rotation (beats : List EnhancedBeatData)
    (s1 s2 : SongSection) :
    applyAntiRepetitionVariations beats s1
        = applyAntiRepetitionVariations beats s2 ∧
      (applyAntiRepetitionVariations beats s1).length = beats.length ∧
      ∀ i, (applyAntiRepetitionVariations beats s1).get? i
        = (beats.get? i).map (fun b => { b with lane := jsMod (b.lane + 1) 4 }) := by
  refine ⟨rfl, ?_, ?_⟩
  · simp [applyAntiRepetitionVariations]
  · intro i
    simp [applyAntiRepetitionVariations, List.getElem?_map]

/-! ## Hold variation (C9) -/

theorem withNext_get {α : Type} :
    ∀ (l : List α) (i : ℕ),
      (withNext l).get? i = (l.get? i).map (fun x => (x, l.get? (i + 1))) := by
  intro l
  induction l with
  | nil => intro i; simp [withNext]
  | cons x xs ih =>
    intro i
    cases xs with
    | nil =>
      cases i with
      | zero => simp [withNext]
      | succ j => cases j <;> simp [withNext]
    | cons y ys =>
      cases i with
      | zero => simp [withNext]
      | succ j =>
        simp only [withNext, List.get?_cons_succ]
        exact ih j

theorem withNext_length {α : Type} :
    ∀ l : List α, (withNext l).length = l.length := by
  intro l
  induction l with
  | nil => rfl
  | cons x xs ih =>
    cases xs with
    | nil => rfl
    | cons y ys => simpa [withNext] using ih

/-- The base hold length `applyHoldVariations` reads from a hold beat: the
stored duration when it is set and truthy, and 0.5 when it is unset *or
falsy* (0 or NaN) -- the `|| 0.5` of the source treats a stored 0 exactly
like an absent value. -/
def baseHold (b : EnhancedBeatData) : JNum :=
  match b.holdDuration with
  | some d => if d.truthy then d else (0.5 : JNum)
  | none => (0.5 : JNum)

theorem baseHold_not_nan (b : EnhancedBeatData) : baseHold b ≠ JNum.nan := by
  unfold baseHold
  cases b.holdDuration with
  | none => decide
  | some d =>
    cases d with
    | fin q =>
      intro h
      dsimp only at h
      split at h
      · exact JNum.noConfusion h
      · exact absurd h (by decide)
    | nan => decide
    | pinf => decide
    | ninf => decide

theorem mul12_not_nan {x : JNum} (hx : x ≠ JNum.nan) :
    x * (1.2 : JNum) ≠ JNum.nan := by
  cases x with
  | fin q =>
    rw [show (1.2 : JNum) = JNum.fin (mkJQ 6 5 (by omega)) from by decide]
    simp [jmul_def, JNum.mul]
  | nan => exact absurd rfl hx
  | pinf => decide
  | ninf => decide

theorem jmin_cap {x : JNum} (hx : x ≠ JNum.nan) :
    JNum.jle (JNum.jmin x (2.0 : JNum)) (2.0 : JNum) = true := by
  cases x with
  | nan => exact absurd rfl hx
  | pinf => decide
  | ninf => decide
  | fin q =>
    rw [show (2.0 : JNum) = JNum.fin (JQ.ofInt 2) from by decide]
    simp only [JNum.jmin]
    split
    · rename_i h
      rw [jle_fin_iff]
      exact ((jlt_fin_iff _ _).mp h).le
    · exact (jle_fin_iff _ _).mpr le_rfl

theorem get?_map_eq {α β : Type} (f : α → β) (l : List α) (i : ℕ) :
    (l.map f).get? i = (l.get? i).map f := by
  simp [List.get?_eq_getElem?, List.getElem?_map]

/-- A one-beat list whose hold beat has `holdDuration = some 0` (set but
falsy) in a verse section. -/
def cb9 : List EnhancedBeatData :=
  [{ time := 0, intensity := 1, frequency := 0, type := BeatType.kick, lane := 0,
     pattern := PatternType.template, sect := SongSection.verse, isHold := true,
     holdDuration := some 0 }]

/-- Claim C9 is refuted: on a verse hold beat whose stored `holdDuration`
is 0, the claim's formula gives `min(0, 2.0) = 0`, but `applyHoldVariations`
returns 0.5 -- the source's `beat.holdDuration || 0.5` treats the falsy
stored value 0 as if the duration were unset. -/
theorem claim_C9_counterexample :
    (applyHoldVariations (generatorMorphConfig dsW) cb9).map (fun b => b.holdDuration)
        = [some (0.5 : JNum)] ∧
      ¬(applyHoldVariations (generatorMorphConfig dsW) cb9).map
          (fun b => b.holdDuration)
        = [some (JNum.jmin (0 : JNum) (2.0 : JNum))] := by
  decide

/-- Claim C9 (amended): with hold variations enabled the pass keeps the
list length, leaves every non-hold beat unchanged, and gives every hold
beat the duration `min(base * 1.2, 2.0)` in chorus/bridge and
`min(base, 2.0)` otherwise, where `base` is the stored duration when it is
set and truthy and 0.5 when it is unset *or falsy* (0 or NaN); the beat's
time, lane and hold flag are unchanged, and every resulting hold duration
is at most 2.0. -/
theorem claim_C9_hold_variation (cfg : MorphingConfig)
    (beats : List EnhancedBeatData) (hon : cfg.holdVariations = true) :
    (applyHoldVariations cfg beats).length = beats.length ∧
      (∀ i b, beats.get? i = some b → ¬b.isHold = true →
        (applyHoldVariations cfg beats).get? i = some b) ∧
      (∀ i b, beats.get? i = some b → b.isHold = true →
        ∃ b', (applyHoldVariations cfg beats).get? i = some b' ∧
          b'.holdDuration = some (JNum.jmin
            (if b.sect = SongSection.chorus ∨ b.sect = SongSection.bridge then
              baseHold b * (1.2 : JNum)
            else baseHold b) (2.0 : JNum)) ∧
          b'.time = b.time ∧ b'.lane = b.lane ∧ b'.isHold = true ∧
          ∀ d, b'.holdDuration = some d → JNum.jle d (2.0 : JNum) = true) := by
  unfold applyHoldVariations
  rw [if_neg (by simp [hon])]
  refine ⟨?_, ?_, ?_⟩
  · rw [List.length_map, withNext_length]
  · intro i b hb hnh
    rw [get?_map_eq, withNext_get, hb]
    dsimp only [Option.map]
    rw [if_neg hnh]
  · intro i b hb hh
    rw [get?_map_eq, withNext_get, hb]
    dsimp only [Option.map]
    rw [if_pos hh]
    refine ⟨_, rfl, rfl, rfl, rfl, hh, ?_⟩
    intro d hd
    cases hd
    split
    · exact jmin_cap (mul12_not_nan (baseHold_not_nan b))
    · exact jmin_cap (baseHold_not_nan b)

theorem claim_C9_hold_variation_witness :
    (generatorMorphConfig dsW).holdVariations = true ∧
      (applyHoldVariations (generatorMorphConfig dsW) cb9).length = cb9.length :=
  ⟨rfl, (claim_C9_hold_variation (generatorMorphConfig dsW) cb9 rfl).1⟩

/-! ## Onset classification (C10) -/

/-- How many of the four frequency bands of `detectMusicalOnsets` contain
a beat's frequency. -/
def bandCount (b : BeatData) : ℕ :=
  (if JNum.jlt b.frequency 250 then 1 else 0) +
  (if JNum.jle 150 b.frequency && JNum.jlt b.frequency 500 then 1 else 0) +
  (if JNum.jle 300 b.frequency && JNum.jlt b.frequency 3000 then 1 else 0) +
  (if JNum.jle 2000 b.frequency then 1 else 0)

/-- A 200 Hz beat (drum band twice: `< 250` and `[150, 500)`). -/
def bd200 : BeatData :=
  { time := 0, intensity := 1, frequency := 200, type := BeatType.kick }

/-- A 400 Hz beat (snare-drum band `[150, 500)` and melody band
`[300, 3000)`). -/
def bd400 : BeatData :=
  { time := 0, intensity := 1, frequency := 400, type := BeatType.kick }

theorem map_bandCount_sum (l : List BeatData) :
    (l.map bandCount).sum
      = l.countP (fun b => JNum.jlt b.frequency 250)
        + l.countP (fun b => JNum.jle 150 b.frequency && JNum.jlt b.frequency 500)
        + l.countP (fun b => JNum.jle 300 b.frequency && JNum.jlt b.frequency 3000)
        + l.countP (fun b => JNum.jle 2000 b.frequency) := by
  induction l with
  | nil => rfl
  | cons b bs ih =>
    simp only [List.map_cons, List.sum_cons, List.countP_cons, ih, bandCount]
    split_ifs <;> omega

theorem not_jlt_flip {x : JNum} {c : JQ} (hn : x ≠ JNum.nan)
    (h : ¬JNum.jlt x (JNum.fin c) = true) : JNum.jle (JNum.fin c) x = true := by
  cases x with
  | nan => exact absurd rfl hn
  | pinf => rfl
  | ninf => exact absurd rfl h
  | fin q =>
    rw [jle_fin_iff]
    rw [jlt_fin_iff] at h
    exact le_of_not_lt h

theorem not_jle_flip {x : JNum} {c : JQ} (hn : x ≠ JNum.nan)
    (h : ¬JNum.jle (JNum.fin c) x = true) : JNum.jlt x (JNum.fin c) = true := by
  cases x with
  | nan => exact absurd rfl hn
  | pinf => exact absurd rfl h
  | ninf => rfl
  | fin q =>
    rw [jlt_fin_iff]
    rw [jle_fin_iff] at h
    exact lt_of_not_le h

/-- The onset constructor of `detectMusicalOnsets`. -/
def mkOnset (t : OnsetType) (b : BeatData) : Onset :=
  { time := b.time, intensity := b.intensity, frequency := b.frequency, otype := t }

/-- Claim C10: `detectMusicalOnsets` emits each input beat once per
frequency band containing its frequency -- the output length is the sum
of the band counts -- every beat whose frequency is not NaN appears at
least once, and overlap frequencies are duplicated: a 200 Hz beat yields
two drum onsets, a 400 Hz beat a drum onset and a melody onset, so the
output can be strictly longer than the input. -/
theorem claim_C10_band_duplication (rawBeats : List BeatData) :
    (detectMusicalOnsets rawBeats).length = (rawBeats.map bandCount).sum ∧
      (∀ b ∈ rawBeats, b.frequency ≠ JNum.nan →
        ∃ o ∈ detectMusicalOnsets rawBeats,
          o.time = b.time ∧ o.intensity = b.intensity ∧
            o.frequency = b.frequency) ∧
      (detectMusicalOnsets [bd200]).map (fun o => o.otype)
        = [OnsetType.drum, OnsetType.drum] ∧
      (detectMusicalOnsets [bd400]).map (fun o => o.otype)
        = [OnsetType.drum, OnsetType.melody] := by
  refine ⟨?_, ?_, by decide, by decide⟩
  · rw [map_bandCount_sum]
    simp only [detectMusicalOnsets, List.length_append, List.length_map,
      List.countP_eq_length_filter]
  · intro b hb hn
    unfold detectMusicalOnsets
    dsimp only
    by_cases h1 : JNum.jlt b.frequency 250 = true
    · refine ⟨mkOnset OnsetType.drum b,
        List.mem_append.mpr (Or.inl (List.mem_append.mpr (Or.inl
          (List.mem_append.mpr (Or.inl
            (List.mem_map.mpr ⟨b, List.mem_filter.mpr ⟨hb, h1⟩, rfl⟩)))))),
        rfl, rfl, rfl⟩
    · by_cases h4 : JNum.jle 2000 b.frequency = true
      · refine ⟨mkOnset OnsetType.accent b,
          List.mem_append.mpr (Or.inr
            (List.mem_map.mpr ⟨b, List.mem_filter.mpr ⟨hb, h4⟩, rfl⟩)),
          rfl, rfl, rfl⟩
      · have h250 : JNum.jle (JNum.fin (JQ.ofInt 250)) b.frequency = true :=
          not_jlt_flip hn h1
        have h2000 : JNum.jlt b.frequency (JNum.fin (JQ.ofInt 2000)) = true :=
          not_jle_flip hn h4
        have hfin : ∃ q, b.frequency = JNum.fin q := by
          cases hfq : b.frequency with
          | nan => exact absurd hfq hn
          | pinf => rw [hfq] at h2000; exact absurd h2000 (by decide)
          | ninf => rw [hfq] at h250; exact absurd h250 (by decide)
          | fin q => exact ⟨q, rfl⟩
        obtain ⟨q, hf⟩ := hfin
        rw [hf, jle_fin_iff, JQ.toRat_ofInt] at h250
        rw [hf, jlt_fin_iff, JQ.toRat_ofInt] at h2000
        by_cases h5 : q.toRat < 500
        · refine ⟨mkOnset OnsetType.drum b,
            List.mem_append.mpr (Or.inl (List.mem_append.mpr (Or.inl
              (List.mem_append.mpr (Or.inr
                (List.mem_map.mpr ⟨b, List.mem_filter.mpr ⟨hb, ?_⟩, rfl⟩)))))),
            rfl, rfl, rfl⟩
          rw [Bool.and_eq_true, hf]
          constructor
          · rw [show (150 : JNum) = JNum.fin (JQ.ofInt 150) from rfl, jle_fin_iff,
              JQ.toRat_ofInt]
            push_cast at h250 ⊢
            linarith
          · rw [show (500 : JNum) = JNum.fin (JQ.ofInt 500) from rfl, jlt_fin_iff,
              JQ.toRat_ofInt]
            push_cast
            linarith
        · refine ⟨mkOnset OnsetType.melody b,
            List.mem_append.mpr (Or.inl (List.mem_append.mpr (Or.inr
              (List.mem_map.mpr ⟨b, List.mem_filter.mpr ⟨hb, ?_⟩, rfl⟩)))),
            rfl, rfl, rfl⟩
          rw [Bool.and_eq_true, hf]
          constructor
          · rw [show (300 : JNum) = JNum.fin (JQ.ofInt 300) from rfl, jle_fin_iff,
              JQ.toRat_ofInt]
            push_cast at h5 h250 ⊢
            linarith
          · rw [show (3000 : JNum) = JNum.fin (JQ.ofInt 3000) from rfl, jlt_fin_iff,
              JQ.toRat_ofInt]
            push_cast at h2000 ⊢
            linarith

theorem claim_C10_band_duplication_witness :
    (detectMusicalOnsets [bd200, bd400]).length
        = ([bd200, bd400].map bandCount).sum ∧
      ∃ o ∈ detectMusicalOnsets [bd200, bd400],
        o.time = bd200.time ∧ o.intensity = bd200.intensity ∧
          o.frequency = bd200.frequency :=
  ⟨(claim_C10_band_duplication [bd200, bd400]).1,
    (claim_C10_band_duplication [bd200, bd400]).2.1 bd200 (by decide) (by decide)⟩
